import Mathlib

/-!
Shallow embedding of the provenance-capture engine of `logprov`
(`logprov/capture.py`), together with proofs of its specified properties.

Conventions of the embedding:
* Python dicts used as keyed maps (`traced_variables`, config, definitions)
  become association lists `List (String × _)`; assignment to an existing key
  replaces it in place, assignment to a fresh key appends at the end, which is
  exactly CPython's insertion-order semantics.
* Python integers become `Int` (unbounded, as in Python).
* Entity identifiers handled by the derivation tracker are modelled as `Int`:
  this covers `PythonObject`-typed entities, whose identifiers are the numeric
  values produced by `ProvCapture.get_entity_id` (`File` entities produce
  string hashes, which the tracker's `new_id += 1` arithmetic does not
  support).
* Fallible Python code returns `Except`; a raised exception is `.error`.
-/

namespace Logprov

/-- An item description (one element of a `usage`/`generation` list of an
activity description in the YAML definitions): the fields read by
`get_entity_id`, `get_derivation_records` and `log_generation`. -/
structure ItemDescription where
  entity_description : Option String := none
  value : Option String := none
  type_ : Option String := none
deriving DecidableEq, Repr

/-- An entity description from the YAML definitions (field `type` plus the
`index` filename used for `FileCollection`). -/
structure EntityDesc where
  type_ : String := ""
  index : Option String := none
deriving DecidableEq, Repr

/-- The `definitions` structure handed to `ProvCapture`: the parts consumed by
`get_entity_id` (`entity_descriptions`, keyed by description name). -/
structure Definitions where
  entity_descriptions : List (String × EntityDesc) := []
deriving DecidableEq, Repr

/-- One entry of `ProvCapture.traced_variables`: the dict
`{last_id, previous_ids, item_description, modifier}` kept per variable path. -/
structure TVEntry where
  last_id : Int
  previous_ids : List Int
  item_description : ItemDescription
  modifier : Int
deriving DecidableEq, Repr

/-- `ProvCapture.traced_variables`: a Python dict keyed by variable path,
modelled as an insertion-ordered association list. -/
abbrev TVMap := List (String × TVEntry)

/-- Dict lookup `traced_variables.get(var)`. -/
def lookupEntry : TVMap → String → Option TVEntry
  | [], _ => none
  | p :: m, var => if p.1 = var then some p.2 else lookupEntry m var

/-- `var in traced_variables`. -/
def containsKey : TVMap → String → Bool
  | [], _ => false
  | p :: m, var => p.1 = var || containsKey m var

/-- In-place replacement of the entry stored under an existing key. -/
def replaceEntry : TVMap → String → TVEntry → TVMap
  | [], _, _ => []
  | p :: m, var, e => (if p.1 = var then (var, e) else p) :: replaceEntry m var e

/-- Dict assignment `traced_variables[var] = e`: replaces the entry in place
when the key exists, otherwise appends at the end (CPython insertion order). -/
def setEntry (m : TVMap) (var : String) (e : TVEntry) : TVMap :=
  if containsKey m var then replaceEntry m var e else m ++ [(var, e)]

/-- The `previous_ids` list currently recorded for a path (empty when the path
is not tracked). -/
def lookupPrev (m : TVMap) (var : String) : List Int :=
  match lookupEntry m var with
  | some e => e.previous_ids
  | none => []

/-- Fueled form of the loop
`while new_id in previous_ids: modifier += 1; new_id += 1`. Each iteration
strictly shrinks the set of elements of `prev` at or above the candidate, so
with fuel exceeding that count the zero-fuel case is unreachable
(`bumpFuel_not_mem`). -/
def bumpFuel : Nat → Int → Int → List Int → Int × Int
  | 0, modifier, new_id, _ => (modifier, new_id)
  | n + 1, modifier, new_id, prev =>
    if new_id ∈ prev then bumpFuel n (modifier + 1) (new_id + 1) prev
    else (modifier, new_id)

/-- The collision loop of `get_derivation_records` / `log_generation`,
returning the final `(modifier, new_id)` pair. -/
def bump (modifier new_id : Int) (prev : List Int) : Int × Int :=
  bumpFuel ((prev.filter (fun y => decide (new_id ≤ y))).length + 1) modifier new_id prev

/-! ### Log records

A record is a Python dict written to the log; its shape is given by which keys
are present (`capture.py` never tags records with an explicit kind). The
constructors below carry exactly the keys `capture.py` puts in each shape
(timestamps as opaque strings; the session system snapshot omitted). -/

inductive ProvRecord where
  | session (session_id : Int)
  | startActivity (activity_id : String) (name : String) (startTime : String)
      (in_session : Int)
  | finishActivity (activity_id : String) (endTime : String)
  | parameters (activity_id : String)
  | usage (activity_id : String) (used_id : Int) (used_role : Option String)
  | generation (activity_id : String) (generated_id : Int) (generated_role : Option String)
  | entity (entity_id : Int) (entity_description : Option String) (type_ : Option String)
      (location : Option String) (modifier : Option Int)
  | derivation (entity_id : Int) (progenitor_id : Int) (generated_time : String)
deriving DecidableEq, Repr

def ProvRecord.isDerivation : ProvRecord → Bool
  | .derivation _ _ _ => true
  | _ => false

def ProvRecord.isGeneration : ProvRecord → Bool
  | .generation _ _ _ => true
  | _ => false

def ProvRecord.isUsage : ProvRecord → Bool
  | .usage _ _ _ => true
  | _ => false

def ProvRecord.isStart : ProvRecord → Bool
  | .startActivity _ _ _ _ => true
  | _ => false

def ProvRecord.isFinish : ProvRecord → Bool
  | .finishActivity _ _ => true
  | _ => false

def ProvRecord.isSession : ProvRecord → Bool
  | .session _ => true
  | _ => false

def ProvRecord.isEntity : ProvRecord → Bool
  | .entity _ _ _ _ _ => true
  | _ => false

/-! ### `ProvCapture.get_derivation_records`

The pre-call derivation check (capture.py lines 503-548). The recomputation
`get_entity_id(get_nested_value(scope, var), item_description)` is abstracted
as the argument `eid var idesc m` — it reads the current `traced_variables`
map `m` because `get_entity_id` adds the `modifier` stored there for the
item's `value` path. -/

/-- The body of the `for var, tv_dict in self.traced_variables.items()` loop
for one variable path. -/
def derivStep (eid : String → ItemDescription → TVMap → Int) (now : String)
    (var : String) (m : TVMap) : List ProvRecord × TVMap :=
  if var = "_returned_result" then ([], m)
  else
    match lookupEntry m var with
    | none => ([], m)
    | some tv =>
      let entity_id := tv.last_id
      let new_id := eid var tv.item_description m
      if new_id ≠ entity_id then
        let mn := bump tv.modifier new_id tv.previous_ids
        let previous_ids := tv.previous_ids ++ [mn.2]
        let m' := setEntry m var ⟨mn.2, previous_ids, tv.item_description, mn.1⟩
        let ent : ProvRecord := .entity mn.2 tv.item_description.entity_description
          tv.item_description.type_ tv.item_description.value
          (if mn.1 ≠ 0 then some mn.1 else none)
        let der : ProvRecord := .derivation mn.2 entity_id now
        ([ent, der], m')
      else ([], m)

/-- The loop of `get_derivation_records` over the keys of
`traced_variables`, threading the mutated map. -/
def derivLoop (eid : String → ItemDescription → TVMap → Int) (now : String) :
    List String → TVMap → List ProvRecord × TVMap
  | [], m => ([], m)
  | var :: rest, m =>
    let step := derivStep eid now var m
    let tail := derivLoop eid now rest step.2
    (step.1 ++ tail.1, tail.2)

/-- `ProvCapture.get_derivation_records`: iterates over all tracked variable
paths, emitting an entity record and a derivation record for each one whose
recomputed identifier changed, and updating `traced_variables` in place. -/
def get_derivation_records (eid : String → ItemDescription → TVMap → Int)
    (now : String) (m : TVMap) : List ProvRecord × TVMap :=
  derivLoop eid now (m.map Prod.fst) m

/-! ### `ProvCapture.log_generation`

Post-call generation logging (capture.py lines 654-781). Entity-id
computations (`get_entity_id(result, {})` and the `id` of
`get_item_properties`) are taken as inputs: the returned-result id `rid`
(`none` when `log_returned_result` is off or the result is falsy) and, for
each generation item, the already-resolved optional id. The embedding keeps
the numeric-id case (`PythonObject` entities, no `namespace` key). -/

/-- State threaded through the returned-result loop over all tracked
variables: the running `entity_id`, the last iteration's `modifier`, the
`var_name` of the last variable whose `previous_ids` contained the id, and
the map. -/
structure GenResultState where
  entity_id : Int
  modifier : Int
  var_name : String
  m : TVMap

/-- The `for var, tv_dict in self.traced_variables.items()` loop of
`log_generation` (lines 668-686): when the running id is among a variable's
`previous_ids`, bump it until unique, append it and refresh the entry. -/
def genResultLoop : List String → GenResultState → GenResultState
  | [], s => s
  | var :: rest, s =>
    match lookupEntry s.m var with
    | none => genResultLoop rest { s with modifier := 0 }
    | some tv =>
      if s.entity_id ∈ tv.previous_ids then
        let mn := bump 0 s.entity_id tv.previous_ids
        let previous_ids := tv.previous_ids ++ [mn.2]
        let m' := setEntry s.m var ⟨mn.2, previous_ids, tv.item_description, mn.1⟩
        genResultLoop rest ⟨mn.2, mn.1, var, m'⟩
      else
        genResultLoop rest { s with modifier := 0 }

/-- Registration of the returned result as `_returned_result` (lines
691-703), reached only when no tracked variable's `previous_ids` contained
the result's id. -/
def registerReturnedResult (rid : Int) (m : TVMap) : TVMap :=
  match lookupEntry m "_returned_result" with
  | some tv =>
    setEntry m "_returned_result" ⟨rid, tv.previous_ids ++ [rid], tv.item_description, 0⟩
  | none =>
    setEntry m "_returned_result" ⟨rid, [rid], {}, 0⟩

/-- State threaded through the generation-items loop: emitted records, the
map, the `log_returned_entity` flag and the current `modifier` variable
(written per item, read by the final returned-result record). -/
structure GenItemsState where
  records : List ProvRecord
  m : TVMap
  log_returned_entity : Bool
  modifier : Int

/-- The traced-variable update for one resolved generation item (lines
710-733): when the item's `value` path is tracked, subtract the stored
modifier, bump against `previous_ids` until unique and append; when
untracked, register the path fresh. Returns `(entity_id, modifier, map)`. -/
def genItemStep (id0 : Int) (idesc : ItemDescription) (m : TVMap) :
    Int × Int × TVMap :=
  match idesc.value with
  | some var =>
    match lookupEntry m var with
    | some tv =>
      let start := id0 - tv.modifier
      let mn := bump 0 start tv.previous_ids
      let previous_ids := tv.previous_ids ++ [mn.2]
      (mn.2, mn.1, setEntry m var ⟨mn.2, previous_ids, idesc, mn.1⟩)
    | none => (id0, 0, setEntry m var ⟨id0, [id0], idesc, 0⟩)
  | none => (id0, 0, m)

/-- The `for item_description in generation_list` loop of `log_generation`
(lines 704-763): each resolved item re-registers its `value` path as a traced
variable (collision-bumping against `previous_ids`) and emits an entity
record followed by a generation record. -/
def genItemsLoop (activity_id : String) (returned_entity_id : Option Int)
    (role : ItemDescription → Option String) :
    List (Option Int × ItemDescription) → GenItemsState → GenItemsState
  | [], s => s
  | (idOpt, idesc) :: rest, s =>
    match idOpt with
    | none => genItemsLoop activity_id returned_entity_id role rest s
    | some id0 =>
      let step := genItemStep id0 idesc s.m
      let entity_id := step.1
      let modifier := step.2.1
      let m' := step.2.2
      let flag := if some entity_id = returned_entity_id then false
        else s.log_returned_entity
      let ent : ProvRecord := .entity entity_id idesc.entity_description none
        idesc.value (if modifier ≠ 0 then some modifier else none)
      let gen : ProvRecord := .generation activity_id entity_id (role idesc)
      genItemsLoop activity_id returned_entity_id role rest
        ⟨s.records ++ [ent, gen], m', flag, modifier⟩

/-- `ProvCapture.log_generation`: handles the returned result against the
tracked variables, processes the declared generation items, and finally emits
a generic `result` generation when the returned entity was not covered by a
declared item. Returns `(emitted records, new traced_variables)`. -/
def log_generation (rid : Option Int)
    (genItems : List (Option Int × ItemDescription))
    (role : ItemDescription → Option String)
    (activity_id : String) (m : TVMap) : List ProvRecord × TVMap :=
  let resPhase : Option Int × Int × String × TVMap :=
    match rid with
    | none => (none, 0, "", m)
    | some rid0 =>
      let s := genResultLoop (m.map Prod.fst) ⟨rid0, 0, "", m⟩
      let m' := if s.var_name = "" then registerReturnedResult s.entity_id s.m else s.m
      (some s.entity_id, s.modifier, s.var_name, m')
  let returned_entity_id := resPhase.1
  let returned_entity_modifier := resPhase.2.1
  let var_name := resPhase.2.2.1
  let m1 := resPhase.2.2.2
  let s0 : GenItemsState := ⟨[], m1, rid.isSome, returned_entity_modifier⟩
  let s1 := genItemsLoop activity_id returned_entity_id role genItems s0
  let finalRecs : List ProvRecord :=
    match returned_entity_id with
    | some r =>
      if s1.log_returned_entity then
        [ProvRecord.entity r none none
          (if var_name ≠ "" then some var_name else none)
          (if s1.modifier ≠ 0 then some returned_entity_modifier else none),
         ProvRecord.generation activity_id r (some "result")]
      else []
    | none => []
  (s1.records ++ finalRecs, s1.m)

/-! ### The activity interceptor

`ProvCapture.trace.wrapper` (capture.py lines 190-238) together with
`log_is_active` (lines 163-172) and `log_session` (lines 453-479). The
pre-call usage and parameter record lists, the scope's truthiness, the
returned-result id and the resolved generation items stand as inputs for the
corresponding `get_usage_records` / `get_parameters_records` /
`get_entity_id` / `get_item_properties` computations. -/

/-- The configuration keys read by the wrapper (after `__init__` filled the
defaults, `capture` is always present). -/
structure CaptureConfig where
  capture : Bool
  log_returned_result : Bool
deriving DecidableEq, Repr

/-- `ProvCapture.log_is_active`: capture happens only when the scope is truthy
and the `capture` config flag is set. -/
def log_is_active (cfg : CaptureConfig) (scope_truthy : Bool) : Bool :=
  let active := true
  let active := if ¬ scope_truthy then false else active
  let active := if ¬ cfg.capture then false else active
  active

/-- The engine-global state the wrapper mutates: the session list and the
traced-variables map. -/
structure CaptureState where
  sessions : List Int
  traced_variables : TVMap
deriving DecidableEq, Repr

/-- `ProvCapture.log_session`: emits a session record only the first time the
engine's session id is seen. -/
def log_session (session_id : Int) (sessions : List Int) :
    List ProvRecord × List Int :=
  if session_id ∈ sessions then ([], sessions)
  else ([.session session_id], sessions ++ [session_id])

/-- The outcome of one traced invocation: the (propagated) result, the records
emitted to the log in order, and the updated engine state. -/
structure WrapOutcome (α : Type) where
  result : Except String α
  emitted : List ProvRecord
  state : CaptureState

/-- `ProvCapture.trace.wrapper`: pre-call capture (derivation check, usage and
parameter records), invocation of the wrapped callable on the unchanged
arguments, and post-call emission — session, derivations, start-activity,
parameters, usage, generation, end-activity. If the callable raises, the
exception propagates and nothing is emitted. -/
def trace_wrapper {π α : Type} (cfg : CaptureConfig) (session_id : Int)
    (activity : String) (activity_id : String) (scope_truthy : Bool)
    (eid : String → ItemDescription → TVMap → Int)
    (usage_records parameter_records : List ProvRecord)
    (rid : Option Int) (genItems : List (Option Int × ItemDescription))
    (role : ItemDescription → Option String)
    (pre_time start finish : String)
    (func : π → Except String α) (args : π)
    (st : CaptureState) : WrapOutcome α :=
  let log_active := log_is_active cfg scope_truthy
  let pre := if log_active
    then get_derivation_records eid pre_time st.traced_variables
    else ([], st.traced_variables)
  let derivation_records := pre.1
  match func args with
  | .error e => ⟨.error e, [], ⟨st.sessions, pre.2⟩⟩
  | .ok v =>
    if log_active then
      let sess := log_session session_id st.sessions
      let gen := log_generation rid genItems role activity_id pre.2
      ⟨.ok v,
        sess.1 ++ derivation_records ++
          [.startActivity activity_id activity start session_id] ++
          parameter_records ++ usage_records ++ gen.1 ++
          [.finishActivity activity_id finish],
        ⟨sess.2, gen.2⟩⟩
    else ⟨.ok v, [], ⟨st.sessions, pre.2⟩⟩

/-! ### Tracked-variable invariants (C2)

Per entry: `previous_ids` is nonempty and duplicate-free and `last_id` is its
most recently appended (= last) element. Across operations, `previous_ids`
only ever grows by appending at the end. -/

def entryInv (e : TVEntry) : Prop :=
  e.previous_ids ≠ [] ∧ e.previous_ids.getLast? = some e.last_id ∧
    e.previous_ids.Nodup

def TVInv (m : TVMap) : Prop := ∀ p ∈ m, entryInv p.2

/-- `previous_ids` of every path only grows by appending (never loses an
element). -/
def TVExtends (m m' : TVMap) : Prop :=
  ∀ v, ∃ t, lookupPrev m' v = lookupPrev m v ++ t

instance (e : TVEntry) : Decidable (entryInv e) := by
  unfold entryInv
  infer_instance

instance (m : TVMap) : Decidable (TVInv m) := by
  unfold TVInv
  infer_instance

/-- The traced-variables component of `genItemsLoop`, which depends only on
the incoming map. -/
def genItemsMapOnly : List (Option Int × ItemDescription) → TVMap → TVMap
  | [], m => m
  | (idOpt, idesc) :: rest, m =>
    match idOpt with
    | none => genItemsMapOnly rest m
    | some id0 => genItemsMapOnly rest (genItemStep id0 idesc m).2.2

/-! ### C2: sequences of tracker operations -/

/-- One operation on `traced_variables`: either a pre-call derivation check or
a post-call generation update. -/
inductive TVOp where
  | derivCheck (eid : String → ItemDescription → TVMap → Int) (now : String)
  | generation (rid : Option Int) (items : List (Option Int × ItemDescription))
      (role : ItemDescription → Option String) (activity_id : String)

/-- Side condition on an operation: generation items never declare the empty
string as a `value` path (an empty path would defeat the
`if not var_name` guard of `log_generation`, see the counterexample). -/
def TVOp.wf : TVOp → Prop
  | .derivCheck _ _ => True
  | .generation _ items _ _ => ∀ it ∈ items, it.2.value ≠ some ""

def applyTVOp (m : TVMap) : TVOp → TVMap
  | .derivCheck eid now => (get_derivation_records eid now m).2
  | .generation rid items role aid => (log_generation rid items role aid m).2

def applyTVOps (ops : List TVOp) (m : TVMap) : TVMap := ops.foldl applyTVOp m

/-! ### `ProvCapture.get_entity_id` (C6, C10) -/

/-- Generic Python-dict lookup (`d.get(k)` / `d[k]` probing). -/
def alistLookup {β : Type} : List (String × β) → String → Option β
  | [], _ => Option.none
  | p :: m, k => if p.1 = k then some p.2 else alistLookup m k

/-- The runtime facets of a Python value consulted by `get_entity_id` for
in-memory entities: `str(value)` (also the path/dir name for file-typed
entities), `hash(value)` — absent when the value is unhashable and `hash`
raises `TypeError` —, `id(value)`, and the optional `entity_version`
attribute. -/
structure PyIdValue where
  str_ : String
  hashVal : Option Int
  addr : Int
  entityVersion : Option Int
deriving DecidableEq, Repr

/-- Python `abs`. -/
def pyAbs (i : Int) : Int := if i < 0 then -i else i

/-- An entity identifier: numeric for in-memory objects, a string for file
hashes. -/
inductive EId where
  | num (i : Int)
  | str (s : String)
deriving DecidableEq, Repr

/-- Resolution of the entity-description name and type (capture.py lines
285-292): a `KeyError` — the item has no `entity_description` key, or the
named description is missing from the definitions — makes both fall back to
`(var_name, "")`. -/
def resolve_ed (defs : Definitions) (idesc : ItemDescription)
    (var_name : String) : String × String :=
  match idesc.entity_description with
  | some n =>
    match alistLookup defs.entity_descriptions n with
    | some ed => (n, ed.type_)
    | Option.none => (var_name, "")
  | Option.none => (var_name, "")

/-- The modifier added for a tracked `value` path (lines 314-317 and
327-330). -/
def trackedModifier (tv : TVMap) (idesc : ItemDescription) : Int :=
  match idesc.value with
  | some v =>
    match lookupEntry tv v with
    | some e => e.modifier
    | Option.none => 0
  | Option.none => 0

/-- `ProvCapture.get_entity_id` (lines 283-331). File-system interaction is
abstracted: `file_hash` stands for `self.get_file_hash`, `get_file_id_func`
for the externally supplied id function, `is_dir` for
`Path(os.path.expandvars(...)).is_dir()`, and `hashString` for Python's
`hash` on strings. -/
def get_entity_id (defs : Definitions) (tv : TVMap)
    (get_file_id_func : Option (String → String))
    (hashString : String → Int) (file_hash : String → String)
    (is_dir : String → Bool)
    (value : PyIdValue) (idesc : ItemDescription) (var_name : String) : EId :=
  let ed := resolve_ed defs idesc var_name
  let ed_name := ed.1
  let ed_type := ed.2
  if ed_type = "FileCollection" then
    let index := match alistLookup defs.entity_descriptions ed_name with
      | some d => d.index.getD ""
      | Option.none => ""
    let filename := if is_dir value.str_ ∧ index ≠ ""
      then value.str_ ++ "/" ++ index else value.str_
    match get_file_id_func with
    | some f => EId.str (f value.str_)
    | Option.none => EId.str (file_hash filename)
  else if ed_type = "File" then
    match get_file_id_func with
    | some f => EId.str (f value.str_)
    | Option.none => EId.str (file_hash value.str_)
  else
    match value.hashVal with
    | some h =>
      EId.num (pyAbs (h + hashString value.str_) * 10 + trackedModifier tv idesc +
        value.entityVersion.getD 0)
    | Option.none =>
      EId.num (pyAbs (value.addr + hashString ed_name) * 10 +
        trackedModifier tv idesc)

/-! ### `ProvCapture.get_file_hash` (C7) -/

def SUPPORTED_HASH_TYPE : List String :=
  ["sha1", "sha224", "sha256", "sha384", "sha512", "md5"]

/-- The configuration key read by `get_hash_method` (`hash_type`; a missing
key raises `KeyError`, caught and defaulted to `sha1`). -/
structure HashConfig where
  hash_type : Option String
deriving DecidableEq, Repr

/-- `ProvCapture.get_hash_method` (lines 251-260): lower-case the configured
name, default on `KeyError`, and replace unsupported methods by the sentinel
`Full path`. -/
def get_hash_method (cfg : HashConfig) : String :=
  let method := match cfg.hash_type with
    | some t => t.toLower
    | Option.none => "sha1"
  if method ∈ SUPPORTED_HASH_TYPE then method else "Full path"

/-- A hashlib hash object: `getattr(hashlib, method)()` produces the initial
state, `update` folds a block in, `hexdigest` renders the digest. -/
structure HashFunc (σ : Type) where
  init : σ
  update : σ → List Nat → σ
  hexdigest : σ → String

/-- The file-system facets used by `get_file_hash`:
`Path(os.path.expandvars(path))` and `is_file` together with the file's
bytes. -/
structure FileSys where
  expandvars : String → String
  files : String → Option (List Nat)

/-- The `f.read(65536)` loop of `get_file_hash`: the file's bytes cut into
blocks of 65536. Fueled structural recursion; each step consumes at least one
byte, so `length + 1` fuel always reaches the empty buffer. -/
def chunkBytesFuel : Nat → List Nat → List (List Nat)
  | 0, _ => []
  | n + 1, bs => if bs = [] then [] else bs.take 65536 :: chunkBytesFuel n (bs.drop 65536)

def chunkBytes (bs : List Nat) : List (List Nat) :=
  chunkBytesFuel (bs.length + 1) bs

/-- `ProvCapture.get_file_hash` (lines 262-281): unsupported hash method
returns the expanded path string; an existing file is streamed block-wise
through the hash object and the hex digest returned; a missing file returns
the original path string. The function is total — it never raises. -/
def get_file_hash {σ : Type} (cfg : HashConfig) (fsys : FileSys)
    (alg : String → HashFunc σ) (path : String) : String :=
  let method := get_hash_method cfg
  let full_path := fsys.expandvars path
  if method = "Full path" then full_path
  else
    match fsys.files full_path with
    | some bytes =>
      let hash_func := alg method
      hash_func.hexdigest ((chunkBytes bytes).foldl hash_func.update hash_func.init)
    | Option.none => path

/-! ### `Singleton` and `ProvCapture.__init__` (C9) -/

/-- A Python configuration value as occurring in `logprov_default_config`. -/
inductive ConfigVal where
  | b (v : Bool)
  | s (v : String)
  | dict (entries : List (String × ConfigVal))

/-- `logprov_default_config` (capture.py lines 65-75; the nested `logging`
dict handling is logger wiring and not modelled). -/
def logprov_default_config : List (String × ConfigVal) :=
  [("capture", .b true),
   ("hash_type", .s "sha1"),
   ("log_filename", .s "prov.log"),
   ("log_args", .b true),
   ("log_args_as_entities", .b true),
   ("log_kwargs", .b true),
   ("log_returned_result", .b true),
   ("system_dict", .dict []),
   ("env_vars", .dict [])]

/-- The arguments of `ProvCapture(definitions=..., config=...,
get_file_id_func=...)`; `none` models passing `None` (or not passing the
argument). -/
structure InitArgs where
  definitions : Option Definitions
  config : Option (List (String × ConfigVal))
  get_file_id_func : Option (String → String)

/-- The engine instance built by `ProvCapture.__init__` (lines 116-144):
configuration with defaults filled in, definitions, the external file-id
function, and the empty mutable state. Logger configuration is omitted. -/
structure ProvCaptureInst where
  config : List (String × ConfigVal)
  definitions : Definitions
  get_file_id_func : Option (String → String)
  sessions : List Int
  traced_variables : TVMap
  usage_ids : List Int

/-- `ProvCapture.__init__`: `if config:` (falsy `None` or `{}` selects the
default), then every missing default key is copied in; `if definitions:`
likewise. -/
def provCaptureInit (a : InitArgs) : ProvCaptureInst :=
  let config0 := match a.config with
    | some c => if c.isEmpty then logprov_default_config else c
    | Option.none => logprov_default_config
  let config := logprov_default_config.foldl
    (fun c kv => if c.any (fun p => p.1 = kv.1) then c else c ++ [kv]) config0
  { config := config,
    definitions := match a.definitions with
      | some d => d
      | Option.none => { entity_descriptions := [] },
    get_file_id_func := a.get_file_id_func,
    sessions := [], traced_variables := [], usage_ids := [] }

/-- The `Singleton` metaclass `__call__` (lines 103-111): construct and store
on the first call (`cls.instance` is `None`, falsy); afterwards the stored
instance — an object, always truthy — is returned and the arguments are
ignored. -/

def singletonCall (st : Option ProvCaptureInst) (a : InitArgs) :
    ProvCaptureInst × Option ProvCaptureInst :=
  match st with
  | some inst => (inst, some inst)
  | Option.none =>
    let inst := provCaptureInit a
    (inst, some inst)

/-- Repeated constructions `ProvCapture(...)` threading the metaclass state;
returns the instance produced by each construction. -/
def runConstructions : List InitArgs → Option ProvCaptureInst → List ProvCaptureInst
  | [], _ => []
  | a :: rest, st =>
    let r := singletonCall st a
    r.1 :: runConstructions rest r.2

/-! ### `ProvCapture.get_nested_value` (C5)

The path resolver over a model of Python runtime values. Object attribute
and method namespaces are modelled separately (a method is a total function
of the parsed positional and keyword argument strings); strings, lists and
dicts carry their contents so that indexing semantics — including negative
indices, `IndexError` and `KeyError` — follow CPython. Every `str.split`,
`in` and `str.replace` call of `get_nested_value` uses a one-character
separator, modelled by the executable char-list helpers below. -/

/-- Exceptions observable from `get_nested_value`. -/
inductive PyErr where
  | typeError
  | attributeError
  | valueError
  | indexError
  | keyError
deriving DecidableEq, Repr

inductive PyVal where
  | none
  | bool (b : Bool)
  | int (n : Int)
  | str (s : String)
  | list (xs : List PyVal)
  | dict (entries : List (String × PyVal))
  | obj (attrs : List (String × PyVal))
      (methods : String → Option (List String → List (String × String) → PyVal))

/-- Python `sep in s` for a one-character separator. -/
def pyContains (s : String) (c : Char) : Bool := s.data.contains c

/-- Python `s.replace(t, "")` for a one-character `t`. -/
def pyRemoveChar (s : String) (c : Char) : String :=
  String.mk (s.data.filter (fun x => x ≠ c))

def splitCharAux : List Char → Char → List Char → List String
  | [], _, acc => [String.mk acc.reverse]
  | c :: cs, sep, acc =>
    if c = sep then String.mk acc.reverse :: splitCharAux cs sep []
    else splitCharAux cs sep (c :: acc)

/-- Python `s.split(sep)` for a one-character separator (keeps empty
pieces; `"".split(sep) == [""]`). -/
def pySplitChar (s : String) (sep : Char) : List String :=
  splitCharAux s.data sep []

def digitsValAux : List Char → Nat → Option Nat
  | [], acc => some acc
  | c :: cs, acc =>
    if c.isDigit then digitsValAux cs (acc * 10 + (c.toNat - ('0').toNat))
    else Option.none

def pyIntOfChars : List Char → Option Int
  | [] => Option.none
  | '-' :: cs =>
    match cs with
    | [] => Option.none
    | _ => (digitsValAux cs 0).map (fun n => -(n : Int))
  | '+' :: cs =>
    match cs with
    | [] => Option.none
    | _ => (digitsValAux cs 0).map (fun n => (n : Int))
  | cs => (digitsValAux cs 0).map (fun n => (n : Int))

/-- `int(s)`: `ValueError` when the cleaned index string is not an integer
literal. -/
def pyInt (s : String) : Except PyErr Int :=
  match pyIntOfChars s.data with
  | some n => .ok n
  | Option.none => .error .valueError

/-- Python truthiness, as tested by `if not scope:`. -/
def pyFalsy : PyVal → Bool
  | .none => true
  | .bool b => !b
  | .int n => n == 0
  | .str s => s == ""
  | .list xs => xs.isEmpty
  | .dict es => es.isEmpty
  | .obj _ _ => false

def isPyNone : PyVal → Bool
  | .none => true
  | _ => false

/-- `isinstance(scope, dict)`. -/
def isinstance_dict : PyVal → Bool
  | .dict _ => true
  | _ => false

/-- `isinstance(scope, object)` — true of every Python value, which makes the
resolver's `else: raise TypeError` branch unreachable. -/
def isinstance_object : PyVal → Bool := fun _ => true

/-- `scope.get(leaf, None)` on a dict scope. -/
def dictGet : PyVal → String → Option PyVal
  | .dict es, k => alistLookup es k
  | _, _ => Option.none

/-- `getattr(scope, leaf, None)`: attribute with a default. -/
def getattrOpt : PyVal → String → Option PyVal
  | .obj attrs _, name => alistLookup attrs name
  | _, _ => Option.none

/-- `getattr(scope, name)` without a default, as used by the index-segment
branch: raises `AttributeError` when absent. A method attribute is returned
as an opaque non-subscriptable object. -/
def getattrStrict : PyVal → String → Except PyErr PyVal
  | .obj attrs methods, name =>
    match alistLookup attrs name with
    | some v => .ok v
    | Option.none =>
      match methods name with
      | some _ => .ok (.obj [] (fun _ => Option.none))
      | Option.none => .error .attributeError
  | _, _ => .error .attributeError

/-- `getattr(leaf_list, "__getitem__", lambda *a, **k: None)(leaf_index)`:
CPython indexing on lists and strings (negative indices allowed,
`IndexError` out of range), `KeyError` for an integer key on the
string-keyed dicts modelled here, and the default lambda — returning `None`
— for values without `__getitem__`. -/
def pyGetItem : PyVal → Int → Except PyErr PyVal
  | .list xs, i =>
    let j : Int := if i < 0 then i + xs.length else i
    if 0 ≤ j then
      match xs[j.toNat]? with
      | some v => .ok v
      | Option.none => .error .indexError
    else .error .indexError
  | .str s, i =>
    let j : Int := if i < 0 then i + s.length else i
    if 0 ≤ j then
      match s.data[j.toNat]? with
      | some c => .ok (.str (String.mk [c]))
      | Option.none => .error .indexError
    else .error .indexError
  | .dict _, _ => .error .keyError
  | _, _ => .ok .none

/-- The `for arg in leaf_arg_list` parse of a method-call segment (lines
360-365): `k, v = arg.split("=")` raises `ValueError` unless the argument
contains exactly one `=`; quotes are stripped from values. -/
def parseCallArgsLoop :
    List String → List String × List (String × String) →
    Except PyErr (List String × List (String × String))
  | [], acc => .ok acc
  | arg :: rest, (args, kwargs) =>
    if pyContains arg '=' then
      match pySplitChar arg '=' with
      | [k, v] => parseCallArgsLoop rest (args, kwargs ++ [(k, pyRemoveChar v '"')])
      | _ => .error .valueError
    else if arg ≠ "" then
      parseCallArgsLoop rest (args ++ [pyRemoveChar arg '"'], kwargs)
    else parseCallArgsLoop rest (args, kwargs)

/-- A method-call segment (`"(" in leaf`, lines 354-366): parse
`name(args)` after removing `)` and spaces, then call
`getattr(scope, leaf_func, lambda *a, **k: None)` on the parsed arguments.
Calling a non-callable data attribute raises `TypeError`. -/
def callBranch (scope : PyVal) (leaf : String) : Except PyErr PyVal :=
  let cleaned := pyRemoveChar (pyRemoveChar leaf ')') ' '
  let parts := pySplitChar cleaned '('
  let argStr := (parts.getLast?).getD ""
  let fname := ((parts.dropLast).getLast?).getD ""
  match parseCallArgsLoop (pySplitChar argStr ',') ([], []) with
  | .error e => .error e
  | .ok ak =>
    match scope with
    | .obj attrs methods =>
      match methods fname with
      | some f => .ok (f ak.1 ak.2)
      | Option.none =>
        match alistLookup attrs fname with
        | some _ => .error .typeError
        | Option.none => .ok .none
    | _ => .ok .none

/-- An index segment (`"[" in leaf`, lines 367-372): parse `name[i]` after
removing `]` and spaces, convert the index with `int(...)`, fetch the
attribute with a defaultless `getattr` — raising `AttributeError` when the
attribute is missing — and index it via `__getitem__` with a `None`
default. -/
def indexBranch (scope : PyVal) (leaf : String) : Except PyErr PyVal :=
  let cleaned := pyRemoveChar (pyRemoveChar leaf ']') ' '
  let parts := pySplitChar cleaned '['
  let idxStr := (parts.getLast?).getD ""
  let attrName := ((parts.dropLast).getLast?).getD ""
  match pyInt idxStr with
  | .error e => .error e
  | .ok i =>
    match getattrStrict scope attrName with
    | .error e => .error e
    | .ok leaf_list => pyGetItem leaf_list i

/-- `ProvCapture.get_nested_value` on the split segment list (lines 333-392):
a falsy scope short-circuits to a globals lookup of the current segment; a
dict scope is read with `.get`; any other value is an object and dispatches
on the segment's surface syntax; the remaining dotted path recurses on the
intermediate value; a `None` result falls back to the globals. -/
def get_nested_value_segs (g : List (String × PyVal)) :
    PyVal → List String → Except PyErr PyVal
  | scope, [] => .ok scope
  | scope, leaf :: rest =>
    if pyFalsy scope then .ok ((alistLookup g leaf).getD .none)
    else
      let valueE : Except PyErr PyVal :=
        if isinstance_dict scope then .ok ((dictGet scope leaf).getD .none)
        else if isinstance_object scope then
          if pyContains leaf '(' then callBranch scope leaf
          else if pyContains leaf '[' then indexBranch scope leaf
          else .ok ((getattrOpt scope leaf).getD .none)
        else .error .typeError
      match valueE with
      | .error e => .error e
      | .ok value =>
        if rest.isEmpty then
          if isPyNone value then .ok ((alistLookup g leaf).getD .none)
          else .ok value
        else get_nested_value_segs g value rest

/-- `ProvCapture.get_nested_value`: split the dotted path and resolve. -/
def get_nested_value (g : List (String × PyVal)) (scope : PyVal)
    (branch : String) : Except PyErr PyVal :=
  get_nested_value_segs g scope (pySplitChar branch '.')

def isAttributeError : Except PyErr PyVal → Bool
  | .error .attributeError => true
  | _ => false

/-! ## Theorems -/

@[simp] theorem lookupEntry_nil (var : String) : lookupEntry [] var = none := rfl

theorem containsKey_eq_false_of_lookup_none {m : TVMap} {var : String}
    (h : lookupEntry m var = none) : containsKey m var = false := by
  induction m with
  | nil => rfl
  | cons p m ih =>
    by_cases hp : p.1 = var
    · simp [lookupEntry, hp] at h
    · simp only [lookupEntry, hp, if_false] at h
      simp [containsKey, hp, ih h]

theorem lookupEntry_replaceEntry_self (m : TVMap) (var : String) (e : TVEntry)
    (h : containsKey m var = true) :
    lookupEntry (replaceEntry m var e) var = some e := by
  induction m with
  | nil => simp [containsKey] at h
  | cons p m ih =>
    by_cases hp : p.1 = var
    · simp [replaceEntry, lookupEntry, hp]
    · have h' : containsKey m var = true := by
        simpa [containsKey, hp] using h
      simp only [replaceEntry]
      rw [if_neg hp, lookupEntry]
      rw [if_neg hp]
      exact ih h'

theorem lookupEntry_replaceEntry_other (m : TVMap) (var v : String) (e : TVEntry)
    (hne : v ≠ var) :
    lookupEntry (replaceEntry m var e) v = lookupEntry m v := by
  induction m with
  | nil => rfl
  | cons p m ih =>
    by_cases hp : p.1 = var
    · have h1 : var ≠ v := fun hc => hne hc.symm
      have h2 : ¬ p.1 = v := by rw [hp]; exact h1
      simp only [replaceEntry]
      rw [if_pos hp, lookupEntry, lookupEntry]
      simp only [h1, h2, if_false]
      exact ih
    · simp only [replaceEntry]
      rw [if_neg hp, lookupEntry, lookupEntry]
      by_cases hv : p.1 = v
      · simp [hv]
      · simp only [hv, if_false]
        exact ih

theorem lookupEntry_append_single_self (m : TVMap) (var : String) (e : TVEntry)
    (h : containsKey m var = false) :
    lookupEntry (m ++ [(var, e)]) var = some e := by
  induction m with
  | nil => simp [lookupEntry]
  | cons p m ih =>
    simp only [containsKey, Bool.or_eq_false_iff, decide_eq_false_iff_not] at h
    simp only [List.cons_append, lookupEntry, h.1, if_false]
    exact ih h.2

theorem lookupEntry_append_single_other (m : TVMap) (var v : String) (e : TVEntry)
    (hne : v ≠ var) :
    lookupEntry (m ++ [(var, e)]) v = lookupEntry m v := by
  induction m with
  | nil =>
    have h1 : ¬ var = v := fun hc => hne hc.symm
    simp [lookupEntry, h1]
  | cons p m ih =>
    simp only [List.cons_append, lookupEntry]
    by_cases hv : p.1 = v
    · simp [hv]
    · simp only [hv, if_false]
      exact ih

theorem lookupEntry_setEntry_self (m : TVMap) (var : String) (e : TVEntry) :
    lookupEntry (setEntry m var e) var = some e := by
  unfold setEntry
  by_cases h : containsKey m var
  · rw [if_pos h]
    exact lookupEntry_replaceEntry_self m var e h
  · rw [if_neg h]
    exact lookupEntry_append_single_self m var e (by simpa using h)

theorem lookupEntry_setEntry_other (m : TVMap) (var v : String) (e : TVEntry)
    (hne : v ≠ var) : lookupEntry (setEntry m var e) v = lookupEntry m v := by
  unfold setEntry
  by_cases h : containsKey m var
  · rw [if_pos h]
    exact lookupEntry_replaceEntry_other m var v e hne
  · rw [if_neg h]
    exact lookupEntry_append_single_other m var v e hne

theorem lookupPrev_setEntry_self (m : TVMap) (var : String) (e : TVEntry) :
    lookupPrev (setEntry m var e) var = e.previous_ids := by
  simp [lookupPrev, lookupEntry_setEntry_self]

theorem lookupPrev_setEntry_other (m : TVMap) (var v : String) (e : TVEntry)
    (hne : v ≠ var) : lookupPrev (setEntry m var e) v = lookupPrev m v := by
  simp [lookupPrev, lookupEntry_setEntry_other m var v e hne]

/-! ### The collision-avoidance loop

`while new_id in previous_ids: modifier += 1; new_id += 1` — shared by
`get_derivation_records` and `log_generation`. -/

theorem length_filter_ge_mono (x : Int) (l : List Int) :
    (l.filter (fun y => decide (x + 1 ≤ y))).length ≤
      (l.filter (fun y => decide (x ≤ y))).length := by
  induction l with
  | nil => simp
  | cons a l ih =>
    by_cases h1 : x + 1 ≤ a
    · have h2 : x ≤ a := le_trans (by omega) h1
      simp [List.filter_cons, h1, h2]
      omega
    · by_cases h2 : x ≤ a
      · simp [List.filter_cons, h1, h2]
        omega
      · simp only [List.filter_cons, h1, h2, decide_False]
        exact ih

theorem length_filter_ge_strict {x : Int} {l : List Int} (hx : x ∈ l) :
    (l.filter (fun y => decide (x + 1 ≤ y))).length <
      (l.filter (fun y => decide (x ≤ y))).length := by
  induction l with
  | nil => cases hx
  | cons a l ih =>
    rcases List.mem_cons.mp hx with h | h
    · subst h
      have h1 : ¬ x + 1 ≤ x := by omega
      simp [List.filter_cons, h1]
      exact Nat.lt_succ_of_le (length_filter_ge_mono x l)
    · by_cases h1 : x + 1 ≤ a
      · have h2 : x ≤ a := le_trans (by omega) h1
        have := ih h
        simp [List.filter_cons, h1, h2]
        omega
      · by_cases h2 : x ≤ a
        · simp [List.filter_cons, h1, h2]
          exact Nat.lt_succ_of_le (Nat.le_of_lt (ih h))
        · simp only [List.filter_cons, h1, h2, decide_False]
          exact ih h

theorem bumpFuel_not_mem :
    ∀ (n : Nat) (modifier new_id : Int) (prev : List Int),
      (prev.filter (fun y => decide (new_id ≤ y))).length < n →
      (bumpFuel n modifier new_id prev).2 ∉ prev := by
  intro n
  induction n with
  | zero =>
    intro modifier new_id prev hn
    omega
  | succ n ih =>
    intro modifier new_id prev hn
    by_cases h : new_id ∈ prev
    · simp only [bumpFuel, h, if_true]
      exact ih (modifier + 1) (new_id + 1) prev
        (by have := length_filter_ge_strict h; omega)
    · simp [bumpFuel, h]

theorem bump_not_mem (modifier new_id : Int) (prev : List Int) :
    (bump modifier new_id prev).2 ∉ prev :=
  bumpFuel_not_mem _ modifier new_id prev (Nat.lt_succ_self _)

theorem bump_of_not_mem (modifier new_id : Int) (prev : List Int)
    (h : new_id ∉ prev) : bump modifier new_id prev = (modifier, new_id) := by
  simp [bump, bumpFuel, h]

/-! ### Characterization of the derivation check -/

theorem derivStep_rr (eid : String → ItemDescription → TVMap → Int) (now : String)
    (m : TVMap) : derivStep eid now "_returned_result" m = ([], m) := by
  simp [derivStep]

theorem derivStep_none (eid : String → ItemDescription → TVMap → Int) (now : String)
    (var : String) (m : TVMap) (h : lookupEntry m var = none) :
    derivStep eid now var m = ([], m) := by
  unfold derivStep
  by_cases hv : var = "_returned_result"
  · simp [hv]
  · simp [hv, h]

theorem derivStep_unchanged (eid : String → ItemDescription → TVMap → Int)
    (now : String) (var : String) (m : TVMap) (tv : TVEntry)
    (hv : var ≠ "_returned_result") (h : lookupEntry m var = some tv)
    (heq : eid var tv.item_description m = tv.last_id) :
    derivStep eid now var m = ([], m) := by
  unfold derivStep
  simp [hv, h, heq]

theorem derivStep_changed (eid : String → ItemDescription → TVMap → Int)
    (now : String) (var : String) (m : TVMap) (tv : TVEntry)
    (hv : var ≠ "_returned_result") (h : lookupEntry m var = some tv)
    (hne : eid var tv.item_description m ≠ tv.last_id) :
    derivStep eid now var m =
      ([.entity (bump tv.modifier (eid var tv.item_description m) tv.previous_ids).2
          tv.item_description.entity_description tv.item_description.type_
          tv.item_description.value
          (if (bump tv.modifier (eid var tv.item_description m) tv.previous_ids).1 ≠ 0
            then some (bump tv.modifier (eid var tv.item_description m) tv.previous_ids).1
            else none),
        .derivation (bump tv.modifier (eid var tv.item_description m) tv.previous_ids).2
          tv.last_id now],
       setEntry m var
         ⟨(bump tv.modifier (eid var tv.item_description m) tv.previous_ids).2,
          tv.previous_ids ++
            [(bump tv.modifier (eid var tv.item_description m) tv.previous_ids).2],
          tv.item_description,
          (bump tv.modifier (eid var tv.item_description m) tv.previous_ids).1⟩) := by
  unfold derivStep
  simp [hv, h, hne]

theorem derivStep_nil_inv (eid : String → ItemDescription → TVMap → Int)
    (now : String) (var : String) (m : TVMap)
    (h : (derivStep eid now var m).1 = []) :
    (derivStep eid now var m).2 = m ∧
      (var ≠ "_returned_result" → ∀ tv, lookupEntry m var = some tv →
        eid var tv.item_description m = tv.last_id) := by
  by_cases hv : var = "_returned_result"
  · subst hv
    rw [derivStep_rr]
    exact ⟨rfl, fun hc => absurd rfl hc⟩
  · match hm : lookupEntry m var with
    | none =>
      rw [derivStep_none eid now var m hm]
      exact ⟨rfl, fun _ tv htv => by cases htv⟩
    | some tv =>
      by_cases heq : eid var tv.item_description m = tv.last_id
      · rw [derivStep_unchanged eid now var m tv hv hm heq]
        refine ⟨rfl, fun _ tv' htv' => ?_⟩
        cases htv'
        exact heq
      · rw [derivStep_changed eid now var m tv hv hm heq] at h
        cases h

theorem derivLoop_nil_of_unchanged (eid : String → ItemDescription → TVMap → Int)
    (now : String) (keys : List String) (m : TVMap)
    (h : ∀ v ∈ keys, v ≠ "_returned_result" → ∀ tv, lookupEntry m v = some tv →
      eid v tv.item_description m = tv.last_id) :
    derivLoop eid now keys m = ([], m) := by
  induction keys with
  | nil => rfl
  | cons var rest ih =>
    have hstep : derivStep eid now var m = ([], m) := by
      by_cases hv : var = "_returned_result"
      · rw [hv]; exact derivStep_rr eid now m
      · match hm : lookupEntry m var with
        | none => exact derivStep_none eid now var m hm
        | some tv =>
          exact derivStep_unchanged eid now var m tv hv hm
            (h var (List.mem_cons_self var rest) hv tv hm)
    simp only [derivLoop, hstep]
    rw [ih (fun v hv => h v (List.mem_cons_of_mem var hv))]
    rfl

theorem derivLoop_nil_inv (eid : String → ItemDescription → TVMap → Int)
    (now : String) (keys : List String) (m : TVMap)
    (h : (derivLoop eid now keys m).1 = []) :
    (derivLoop eid now keys m).2 = m ∧
      ∀ v ∈ keys, v ≠ "_returned_result" → ∀ tv, lookupEntry m v = some tv →
        eid v tv.item_description m = tv.last_id := by
  induction keys generalizing m with
  | nil => exact ⟨rfl, fun v hv => absurd hv (List.not_mem_nil v)⟩
  | cons var rest ih =>
    simp only [derivLoop] at h ⊢
    rcases List.append_eq_nil.mp h with ⟨h1, h2⟩
    have hstep := derivStep_nil_inv eid now var m h1
    rw [h1] at *
    rw [hstep.1] at h2 ⊢
    have htail := ih m h2
    refine ⟨htail.1, fun v hv hne tv htv => ?_⟩
    rcases List.mem_cons.mp hv with rfl | hv'
    · exact hstep.2 hne tv htv
    · exact htail.2 v hv' hne tv htv

/-- C1: for every traced invocation with capture active, the pre-call check
produces, for each tracked variable path other than `_returned_result`, a
derivation record (old id as `progenitor_id`, freshly assigned id as
`entity_id`) exactly when the recomputed identifier differs from the stored
`last_id`; when no tracked variable changed, zero records are produced. -/
theorem get_derivation_records_correct
    (eid : String → ItemDescription → TVMap → Int) (now : String) (m : TVMap)
    (var : String) (tv : TVEntry) :
    ((get_derivation_records eid now m).1 = [] ↔
      ∀ v ∈ m.map Prod.fst, v ≠ "_returned_result" → ∀ tv', lookupEntry m v = some tv' →
        eid v tv'.item_description m = tv'.last_id) ∧
    (var ≠ "_returned_result" → lookupEntry m var = some tv →
      ((eid var tv.item_description m = tv.last_id → (derivStep eid now var m).1 = []) ∧
       (eid var tv.item_description m ≠ tv.last_id →
         (derivStep eid now var m).1.filter ProvRecord.isDerivation =
           [ProvRecord.derivation
             (bump tv.modifier (eid var tv.item_description m) tv.previous_ids).2
             tv.last_id now] ∧
         (bump tv.modifier (eid var tv.item_description m) tv.previous_ids).2 ∉
           tv.previous_ids))) := by
  constructor
  · constructor
    · intro h
      exact (derivLoop_nil_inv eid now (m.map Prod.fst) m h).2
    · intro h
      unfold get_derivation_records
      rw [derivLoop_nil_of_unchanged eid now (m.map Prod.fst) m h]
  · intro hv htv
    constructor
    · intro heq
      rw [derivStep_unchanged eid now var m tv hv htv heq]
    · intro hne
      rw [derivStep_changed eid now var m tv hv htv hne]
      refine ⟨?_, bump_not_mem tv.modifier (eid var tv.item_description m) tv.previous_ids⟩
      simp [ProvRecord.isDerivation]

/-- Witness for C1 at a concrete tracked map: one variable whose identifier
changed from 5 to 7, and the check emits exactly one derivation record with
progenitor 5. -/
theorem get_derivation_records_correct_witness :
    ("x" ≠ "_returned_result" ∧
      lookupEntry [("x", ⟨5, [5], {}, 0⟩)] "x" = some ⟨5, [5], {}, 0⟩ ∧
      (7 : Int) ≠ 5) ∧
    ((derivStep (fun _ _ _ => 7) "t" "x" [("x", ⟨5, [5], {}, 0⟩)]).1.filter
        ProvRecord.isDerivation =
      [ProvRecord.derivation (bump 0 7 [5]).2 5 "t"] ∧
      (bump 0 7 [5]).2 ∉ ([5] : List Int)) :=
  ⟨⟨by decide, by decide, by decide⟩,
    ((get_derivation_records_correct (fun _ _ _ => 7) "t"
      [("x", ⟨5, [5], {}, 0⟩)] "x" ⟨5, [5], {}, 0⟩).2 (by decide) (by decide)).2
      (by decide)⟩

theorem tvExtends_refl (m : TVMap) : TVExtends m m :=
  fun _ => ⟨[], (List.append_nil _).symm⟩

theorem tvExtends_trans {a b c : TVMap} (h1 : TVExtends a b) (h2 : TVExtends b c) :
    TVExtends a c := by
  intro v
  obtain ⟨t1, ht1⟩ := h1 v
  obtain ⟨t2, ht2⟩ := h2 v
  exact ⟨t1 ++ t2, by rw [ht2, ht1, List.append_assoc]⟩

theorem lookup_some_mem {m : TVMap} {var : String} {tv : TVEntry}
    (h : lookupEntry m var = some tv) : (var, tv) ∈ m := by
  induction m with
  | nil => cases h
  | cons p m ih =>
    obtain ⟨a, b⟩ := p
    by_cases hp : a = var
    · rw [lookupEntry, if_pos hp] at h
      injection h with h
      subst hp
      subst h
      exact List.mem_cons_self _ _
    · rw [lookupEntry, if_neg hp] at h
      exact List.mem_cons_of_mem _ (ih h)

theorem lookup_some_containsKey {m : TVMap} {var : String} {tv : TVEntry}
    (h : lookupEntry m var = some tv) : containsKey m var = true := by
  induction m with
  | nil => cases h
  | cons p m ih =>
    by_cases hp : p.1 = var
    · simp [containsKey, hp]
    · rw [lookupEntry, if_neg hp] at h
      simp [containsKey, hp, ih h]

theorem mem_replaceEntry {m : TVMap} {var : String} {e : TVEntry}
    {p : String × TVEntry} (h : p ∈ replaceEntry m var e) :
    p = (var, e) ∨ p ∈ m := by
  induction m with
  | nil => cases h
  | cons q m ih =>
    simp only [replaceEntry] at h
    rcases List.mem_cons.mp h with h' | h'
    · by_cases hq : q.1 = var
      · rw [if_pos hq] at h'
        exact Or.inl h'
      · rw [if_neg hq] at h'
        exact Or.inr (h' ▸ List.mem_cons_self _ _)
    · rcases ih h' with h'' | h''
      · exact Or.inl h''
      · exact Or.inr (List.mem_cons_of_mem _ h'')

theorem TVInv_setEntry {m : TVMap} {var : String} {e : TVEntry}
    (hm : TVInv m) (he : entryInv e) : TVInv (setEntry m var e) := by
  intro p hp
  unfold setEntry at hp
  split at hp
  · rcases mem_replaceEntry hp with rfl | hp'
    · exact he
    · exact hm p hp'
  · rcases List.mem_append.mp hp with hp' | hp'
    · exact hm p hp'
    · rcases List.mem_singleton.mp hp' with rfl
      exact he

theorem getLast?_append_singleton {α : Type _} (l : List α) (a : α) :
    (l ++ [a]).getLast? = some a := by
  rw [List.getLast?_append_cons]
  rfl

theorem nodup_append_singleton {l : List Int} {a : Int}
    (h : l.Nodup) (ha : a ∉ l) : (l ++ [a]).Nodup := by
  induction l with
  | nil => simp
  | cons b l ih =>
    rw [List.cons_append, List.nodup_cons]
    rw [List.nodup_cons] at h
    refine ⟨?_, ih h.2 (fun hc => ha (List.mem_cons_of_mem _ hc))⟩
    intro hb
    rcases List.mem_append.mp hb with hb' | hb'
    · exact h.1 hb'
    · rcases List.mem_singleton.mp hb' with rfl
      exact ha (List.mem_cons_self _ _)

theorem entryInv_concat {prev : List Int} (hnodup : prev.Nodup) {nid : Int}
    (hnid : nid ∉ prev) (idesc : ItemDescription) (mod : Int) :
    entryInv ⟨nid, prev ++ [nid], idesc, mod⟩ := by
  refine ⟨by simp, ?_, nodup_append_singleton hnodup hnid⟩
  exact getLast?_append_singleton prev nid

theorem tvExtends_setEntry {m : TVMap} {var : String} {e : TVEntry}
    (t : List Int) (he : e.previous_ids = lookupPrev m var ++ t) :
    TVExtends m (setEntry m var e) := by
  intro v
  by_cases hv : v = var
  · subst hv
    exact ⟨t, by rw [lookupPrev_setEntry_self, he]⟩
  · exact ⟨[], by rw [lookupPrev_setEntry_other m var v e hv, List.append_nil]⟩

theorem containsKey_replaceEntry (m : TVMap) (var : String) (e : TVEntry)
    (w : String) : containsKey (replaceEntry m var e) w = containsKey m w := by
  induction m with
  | nil => rfl
  | cons p m ih =>
    by_cases hp : p.1 = var
    · simp only [replaceEntry]
      rw [if_pos hp, containsKey, containsKey, ih, hp]
    · simp only [replaceEntry]
      rw [if_neg hp, containsKey, containsKey, ih]

theorem containsKey_append_single (m : TVMap) (var : String) (e : TVEntry)
    (w : String) :
    containsKey (m ++ [(var, e)]) w = (containsKey m w || decide (var = w)) := by
  induction m with
  | nil => simp [containsKey]
  | cons p m ih =>
    rw [List.cons_append, containsKey, containsKey, ih, Bool.or_assoc]

theorem containsKey_setEntry_ne {m : TVMap} {var w : String} (e : TVEntry)
    (hvw : var ≠ w) :
    containsKey (setEntry m var e) w = containsKey m w := by
  unfold setEntry
  split
  · exact containsKey_replaceEntry m var e w
  · rw [containsKey_append_single]
    simp [hvw]

theorem containsKey_setEntry_existing {m : TVMap} {var : String} (e : TVEntry)
    (h : containsKey m var = true) (w : String) :
    containsKey (setEntry m var e) w = containsKey m w := by
  unfold setEntry
  rw [if_pos h]
  exact containsKey_replaceEntry m var e w

theorem not_mem_map_fst_of_not_containsKey {m : TVMap} {v : String}
    (h : containsKey m v = false) : v ∉ m.map Prod.fst := by
  induction m with
  | nil => simp
  | cons p m ih =>
    rw [containsKey, Bool.or_eq_false_iff] at h
    simp only [List.map_cons, List.mem_cons]
    rintro (rfl | hmem)
    · simp at h
    · exact ih h.2 hmem

/-- Invariant preservation and append-only growth for one derivation-check
step. -/
theorem derivStep_inv (eid : String → ItemDescription → TVMap → Int)
    (now : String) (var : String) (m : TVMap) (hm : TVInv m) :
    TVInv (derivStep eid now var m).2 ∧ TVExtends m (derivStep eid now var m).2 ∧
      ∀ w, containsKey (derivStep eid now var m).2 w = containsKey m w := by
  by_cases hv : var = "_returned_result"
  · subst hv
    rw [derivStep_rr]
    exact ⟨hm, tvExtends_refl m, fun _ => rfl⟩
  · match hmv : lookupEntry m var with
    | none =>
      rw [derivStep_none eid now var m hmv]
      exact ⟨hm, tvExtends_refl m, fun _ => rfl⟩
    | some tv =>
      by_cases heq : eid var tv.item_description m = tv.last_id
      · rw [derivStep_unchanged eid now var m tv hv hmv heq]
        exact ⟨hm, tvExtends_refl m, fun _ => rfl⟩
      · rw [derivStep_changed eid now var m tv hv hmv heq]
        have hnodup := (hm _ (lookup_some_mem hmv)).2.2
        have hnid := bump_not_mem tv.modifier (eid var tv.item_description m)
          tv.previous_ids
        refine ⟨TVInv_setEntry hm (entryInv_concat hnodup hnid _ _), ?_, ?_⟩
        · refine tvExtends_setEntry
            [(bump tv.modifier (eid var tv.item_description m) tv.previous_ids).2] ?_
          simp [lookupPrev, hmv]
        · intro w
          exact containsKey_setEntry_existing _ (lookup_some_containsKey hmv) w

theorem derivLoop_inv (eid : String → ItemDescription → TVMap → Int)
    (now : String) (keys : List String) (m : TVMap) (hm : TVInv m) :
    TVInv (derivLoop eid now keys m).2 ∧ TVExtends m (derivLoop eid now keys m).2 ∧
      ∀ w, containsKey (derivLoop eid now keys m).2 w = containsKey m w := by
  induction keys generalizing m with
  | nil => exact ⟨hm, tvExtends_refl m, fun _ => rfl⟩
  | cons var rest ih =>
    simp only [derivLoop]
    have hstep := derivStep_inv eid now var m hm
    have htail := ih (derivStep eid now var m).2 hstep.1
    exact ⟨htail.1, tvExtends_trans hstep.2.1 htail.2.1,
      fun w => (htail.2.2 w).trans (hstep.2.2 w)⟩

theorem get_derivation_records_inv (eid : String → ItemDescription → TVMap → Int)
    (now : String) (m : TVMap) (hm : TVInv m) :
    TVInv (get_derivation_records eid now m).2 ∧
      TVExtends m (get_derivation_records eid now m).2 ∧
      ∀ w, containsKey (get_derivation_records eid now m).2 w = containsKey m w :=
  derivLoop_inv eid now (m.map Prod.fst) m hm

/-! ### Invariant preservation through `log_generation` -/

theorem genResultLoop_inv (keys : List String) (s : GenResultState)
    (hs : TVInv s.m) :
    TVInv (genResultLoop keys s).m ∧ TVExtends s.m (genResultLoop keys s).m ∧
      ∀ w, containsKey (genResultLoop keys s).m w = containsKey s.m w := by
  induction keys generalizing s with
  | nil => exact ⟨hs, tvExtends_refl s.m, fun _ => rfl⟩
  | cons var rest ih =>
    cases hmv : lookupEntry s.m var with
    | none =>
      simp only [genResultLoop, hmv]
      exact ih _ hs
    | some tv =>
      simp only [genResultLoop, hmv]
      by_cases hmem : s.entity_id ∈ tv.previous_ids
      · simp only [hmem, if_true]
        have hnodup := (hs _ (lookup_some_mem hmv)).2.2
        have hnid := bump_not_mem 0 s.entity_id tv.previous_ids
        have hinv' : TVInv (setEntry s.m var
            ⟨(bump 0 s.entity_id tv.previous_ids).2,
              tv.previous_ids ++ [(bump 0 s.entity_id tv.previous_ids).2],
              tv.item_description, (bump 0 s.entity_id tv.previous_ids).1⟩) :=
          TVInv_setEntry hs (entryInv_concat hnodup hnid _ _)
        have hext : TVExtends s.m (setEntry s.m var
            ⟨(bump 0 s.entity_id tv.previous_ids).2,
              tv.previous_ids ++ [(bump 0 s.entity_id tv.previous_ids).2],
              tv.item_description, (bump 0 s.entity_id tv.previous_ids).1⟩) :=
          tvExtends_setEntry [(bump 0 s.entity_id tv.previous_ids).2]
            (by simp [lookupPrev, hmv])
        have htail := ih ⟨(bump 0 s.entity_id tv.previous_ids).2,
          (bump 0 s.entity_id tv.previous_ids).1, var,
          setEntry s.m var
            ⟨(bump 0 s.entity_id tv.previous_ids).2,
              tv.previous_ids ++ [(bump 0 s.entity_id tv.previous_ids).2],
              tv.item_description, (bump 0 s.entity_id tv.previous_ids).1⟩⟩ hinv'
        refine ⟨htail.1, tvExtends_trans hext htail.2.1, fun w => ?_⟩
        rw [htail.2.2 w]
        exact containsKey_setEntry_existing _ (lookup_some_containsKey hmv) w
      · simp only [hmem, if_false]
        exact ih _ hs

theorem genResultLoop_var_name_ne (keys : List String) (s : GenResultState)
    (hkeys : ∀ v ∈ keys, v ≠ "") (hs : s.var_name ≠ "") :
    (genResultLoop keys s).var_name ≠ "" := by
  induction keys generalizing s with
  | nil => exact hs
  | cons var rest ih =>
    have hrest : ∀ v ∈ rest, v ≠ "" := fun v hv => hkeys v (List.mem_cons_of_mem _ hv)
    cases hmv : lookupEntry s.m var with
    | none =>
      simp only [genResultLoop, hmv]
      exact ih _ hrest hs
    | some tv =>
      simp only [genResultLoop, hmv]
      by_cases hmem : s.entity_id ∈ tv.previous_ids
      · simp only [hmem, if_true]
        exact ih _ hrest (hkeys var (List.mem_cons_self _ _))
      · simp only [hmem, if_false]
        exact ih _ hrest hs

theorem genResultLoop_no_match (keys : List String) (s : GenResultState)
    (hkeys : ∀ v ∈ keys, v ≠ "") (hs : s.var_name = "")
    (hres : (genResultLoop keys s).var_name = "") :
    (genResultLoop keys s).m = s.m ∧
      (genResultLoop keys s).entity_id = s.entity_id ∧
      ∀ v ∈ keys, ∀ tv, lookupEntry s.m v = some tv →
        s.entity_id ∉ tv.previous_ids := by
  induction keys generalizing s with
  | nil => exact ⟨rfl, rfl, fun v hv => absurd hv (List.not_mem_nil v)⟩
  | cons var rest ih =>
    have hrest : ∀ v ∈ rest, v ≠ "" := fun v hv => hkeys v (List.mem_cons_of_mem _ hv)
    cases hmv : lookupEntry s.m var with
    | none =>
      simp only [genResultLoop, hmv] at hres ⊢
      have h := ih { s with modifier := 0 } hrest hs hres
      refine ⟨h.1, h.2.1, fun v hv tv htv => ?_⟩
      rcases List.mem_cons.mp hv with rfl | hv'
      · rw [hmv] at htv
        cases htv
      · exact h.2.2 v hv' tv htv
    | some tv =>
      simp only [genResultLoop, hmv] at hres ⊢
      by_cases hmem : s.entity_id ∈ tv.previous_ids
      · exfalso
        rw [if_pos hmem] at hres
        exact genResultLoop_var_name_ne rest _ hrest
          (hkeys var (List.mem_cons_self _ _)) hres
      · rw [if_neg hmem] at hres ⊢
        have h := ih { s with modifier := 0 } hrest hs hres
        refine ⟨h.1, h.2.1, fun v hv tv' htv' => ?_⟩
        rcases List.mem_cons.mp hv with rfl | hv'
        · rw [hmv] at htv'
          injection htv' with htv'
          subst htv'
          exact hmem
        · exact h.2.2 v hv' tv' htv'

theorem registerReturnedResult_inv (rid : Int) (m : TVMap) (hm : TVInv m)
    (hfresh : ∀ tv, lookupEntry m "_returned_result" = some tv →
      rid ∉ tv.previous_ids) :
    TVInv (registerReturnedResult rid m) ∧
      TVExtends m (registerReturnedResult rid m) ∧
      ∀ w, w ≠ "_returned_result" →
        containsKey (registerReturnedResult rid m) w = containsKey m w := by
  unfold registerReturnedResult
  cases hmv : lookupEntry m "_returned_result" with
  | some tv =>
    have hnid := hfresh tv hmv
    have hnodup := (hm _ (lookup_some_mem hmv)).2.2
    refine ⟨TVInv_setEntry hm (entryInv_concat hnodup hnid _ _),
      tvExtends_setEntry [rid] (by simp [lookupPrev, hmv]), fun w hw => ?_⟩
    exact containsKey_setEntry_ne _ (fun hc => hw hc.symm)
  | none =>
    have hlp : lookupPrev m "_returned_result" = [] := by simp [lookupPrev, hmv]
    refine ⟨TVInv_setEntry hm ⟨by simp, rfl, List.nodup_singleton rid⟩,
      tvExtends_setEntry [rid] (by simp [hlp]), fun w hw => ?_⟩
    exact containsKey_setEntry_ne _ (fun hc => hw hc.symm)

theorem genItemsLoop_m (aid : String) (ret : Option Int)
    (role : ItemDescription → Option String)
    (items : List (Option Int × ItemDescription)) (s : GenItemsState) :
    (genItemsLoop aid ret role items s).m = genItemsMapOnly items s.m := by
  induction items generalizing s with
  | nil => rfl
  | cons it rest ih =>
    obtain ⟨idOpt, idesc⟩ := it
    cases idOpt with
    | none =>
      simp only [genItemsLoop, genItemsMapOnly]
      exact ih _
    | some id0 =>
      simp only [genItemsLoop, genItemsMapOnly]
      exact ih _

theorem genItemStep_inv (id0 : Int) (idesc : ItemDescription) (m : TVMap)
    (hm : TVInv m) (hval : idesc.value ≠ some "") :
    TVInv (genItemStep id0 idesc m).2.2 ∧
      TVExtends m (genItemStep id0 idesc m).2.2 ∧
      (containsKey m "" = false →
        containsKey (genItemStep id0 idesc m).2.2 "" = false) := by
  cases hv : idesc.value with
  | none =>
    simp only [genItemStep, hv]
    exact ⟨hm, tvExtends_refl m, fun h => h⟩
  | some var =>
    have hvar : var ≠ "" := fun hc => hval (by rw [hv, hc])
    cases hmv : lookupEntry m var with
    | some tv =>
      simp only [genItemStep, hv, hmv]
      have hnodup := (hm _ (lookup_some_mem hmv)).2.2
      have hnid := bump_not_mem 0 (id0 - tv.modifier) tv.previous_ids
      refine ⟨TVInv_setEntry hm (entryInv_concat hnodup hnid idesc _),
        tvExtends_setEntry [(bump 0 (id0 - tv.modifier) tv.previous_ids).2]
          (by simp [lookupPrev, hmv]),
        fun hck => ?_⟩
      rw [containsKey_setEntry_existing _ (lookup_some_containsKey hmv) ""]
      exact hck
    | none =>
      simp only [genItemStep, hv, hmv]
      have hlp : lookupPrev m var = [] := by simp [lookupPrev, hmv]
      refine ⟨TVInv_setEntry hm ⟨by simp, rfl, List.nodup_singleton id0⟩,
        tvExtends_setEntry [id0] (by simp [hlp]), fun hck => ?_⟩
      rw [containsKey_setEntry_ne _ hvar]
      exact hck

theorem genItemsMapOnly_inv (items : List (Option Int × ItemDescription))
    (m : TVMap) (hm : TVInv m) (hitems : ∀ it ∈ items, it.2.value ≠ some "") :
    TVInv (genItemsMapOnly items m) ∧ TVExtends m (genItemsMapOnly items m) ∧
      (containsKey m "" = false →
        containsKey (genItemsMapOnly items m) "" = false) := by
  induction items generalizing m with
  | nil => exact ⟨hm, tvExtends_refl m, fun h => h⟩
  | cons it rest ih =>
    obtain ⟨idOpt, idesc⟩ := it
    have hrest : ∀ it ∈ rest, it.2.value ≠ some "" :=
      fun it hit => hitems it (List.mem_cons_of_mem _ hit)
    cases idOpt with
    | none =>
      simp only [genItemsMapOnly]
      exact ih m hm hrest
    | some id0 =>
      simp only [genItemsMapOnly]
      have hstep := genItemStep_inv id0 idesc m hm
        (hitems (some id0, idesc) (List.mem_cons_self _ _))
      have h := ih _ hstep.1 hrest
      exact ⟨h.1, tvExtends_trans hstep.2.1 h.2.1, fun hck => h.2.2 (hstep.2.2 hck)⟩

theorem log_generation_m_none (items : List (Option Int × ItemDescription))
    (role : ItemDescription → Option String) (aid : String) (m : TVMap) :
    (log_generation none items role aid m).2 = genItemsMapOnly items m := by
  simp only [log_generation]
  rw [genItemsLoop_m]

theorem log_generation_m_some (rid0 : Int)
    (items : List (Option Int × ItemDescription))
    (role : ItemDescription → Option String) (aid : String) (m : TVMap) :
    (log_generation (some rid0) items role aid m).2 =
      genItemsMapOnly items
        (if (genResultLoop (m.map Prod.fst) ⟨rid0, 0, "", m⟩).var_name = ""
         then registerReturnedResult
           (genResultLoop (m.map Prod.fst) ⟨rid0, 0, "", m⟩).entity_id
           (genResultLoop (m.map Prod.fst) ⟨rid0, 0, "", m⟩).m
         else (genResultLoop (m.map Prod.fst) ⟨rid0, 0, "", m⟩).m) := by
  simp only [log_generation]
  rw [genItemsLoop_m]

theorem log_generation_inv (rid : Option Int)
    (items : List (Option Int × ItemDescription))
    (role : ItemDescription → Option String) (aid : String) (m : TVMap)
    (hm : TVInv m) (hempty : containsKey m "" = false)
    (hitems : ∀ it ∈ items, it.2.value ≠ some "") :
    TVInv (log_generation rid items role aid m).2 ∧
      TVExtends m (log_generation rid items role aid m).2 ∧
      containsKey (log_generation rid items role aid m).2 "" = false := by
  cases rid with
  | none =>
    rw [log_generation_m_none]
    have h := genItemsMapOnly_inv items m hm hitems
    exact ⟨h.1, h.2.1, h.2.2 hempty⟩
  | some rid0 =>
    have hkeys : ∀ v ∈ m.map Prod.fst, v ≠ "" := by
      intro v hv hc
      subst hc
      exact not_mem_map_fst_of_not_containsKey hempty hv
    rw [log_generation_m_some]
    have hres := genResultLoop_inv (m.map Prod.fst) ⟨rid0, 0, "", m⟩ hm
    by_cases hvn : (genResultLoop (m.map Prod.fst) ⟨rid0, 0, "", m⟩).var_name = ""
    · rw [if_pos hvn]
      have hnm := genResultLoop_no_match (m.map Prod.fst) ⟨rid0, 0, "", m⟩
        hkeys rfl hvn
      have hfresh : ∀ tv,
          lookupEntry (genResultLoop (m.map Prod.fst) ⟨rid0, 0, "", m⟩).m
            "_returned_result" = some tv →
          (genResultLoop (m.map Prod.fst) ⟨rid0, 0, "", m⟩).entity_id ∉
            tv.previous_ids := by
        intro tv htv
        rw [hnm.1] at htv
        rw [hnm.2.1]
        exact hnm.2.2 "_returned_result"
          (List.mem_map_of_mem Prod.fst (lookup_some_mem htv)) tv htv
      have hreg := registerReturnedResult_inv _ _ hres.1 hfresh
      have hg := genItemsMapOnly_inv items _ hreg.1 hitems
      refine ⟨hg.1, tvExtends_trans (tvExtends_trans hres.2.1 hreg.2.1) hg.2.1, ?_⟩
      refine hg.2.2 ?_
      rw [hreg.2.2 "" (by decide), hres.2.2 ""]
      exact hempty
    · rw [if_neg hvn]
      have hg := genItemsMapOnly_inv items _ hres.1 hitems
      refine ⟨hg.1, tvExtends_trans hres.2.1 hg.2.1, ?_⟩
      refine hg.2.2 ?_
      rw [hres.2.2 ""]
      exact hempty

theorem applyTVOp_inv (m : TVMap) (op : TVOp) (hinv : TVInv m)
    (hempty : containsKey m "" = false) (hop : op.wf) :
    TVInv (applyTVOp m op) ∧ TVExtends m (applyTVOp m op) ∧
      containsKey (applyTVOp m op) "" = false := by
  cases op with
  | derivCheck eid now =>
    have h := get_derivation_records_inv eid now m hinv
    refine ⟨h.1, h.2.1, ?_⟩
    rw [applyTVOp, h.2.2 ""]
    exact hempty
  | generation rid items role aid =>
    exact log_generation_inv rid items role aid m hinv hempty hop

/-- C2 (amended): provided the empty string is never used as a tracked
variable path, across any sequence of pre-call derivation checks and
post-call generation updates each path's `previous_ids` only grows by
appending, every appended identifier is fresh for that path, and `last_id`
is always the most recently appended identifier — hence no two identifiers
ever recorded for one path are equal. -/
theorem traced_variables_unique (ops : List TVOp) (m : TVMap)
    (hinv : TVInv m) (hempty : containsKey m "" = false)
    (hops : ∀ op ∈ ops, op.wf) :
    TVInv (applyTVOps ops m) ∧
      (∀ v, ∃ t, lookupPrev (applyTVOps ops m) v = lookupPrev m v ++ t) ∧
      ∀ v tv, lookupEntry (applyTVOps ops m) v = some tv →
        tv.previous_ids.Nodup ∧ tv.previous_ids.getLast? = some tv.last_id := by
  induction ops generalizing m with
  | nil =>
    refine ⟨hinv, tvExtends_refl m, fun v tv htv => ?_⟩
    have := hinv _ (lookup_some_mem htv)
    exact ⟨this.2.2, this.2.1⟩
  | cons op rest ih =>
    have hstep := applyTVOp_inv m op hinv hempty
      (hops op (List.mem_cons_self _ _))
    have htail := ih (applyTVOp m op) hstep.1 hstep.2.2
      (fun o ho => hops o (List.mem_cons_of_mem _ ho))
    refine ⟨htail.1, ?_, htail.2.2⟩
    exact tvExtends_trans hstep.2.1 htail.2.1

/-- Witness for C2 at a concrete map and operation sequence: one derivation
check followed by one generation update on a single tracked variable. -/
theorem traced_variables_unique_witness :
    (TVInv [("x", ⟨5, [5], { value := some "x" }, 0⟩)] ∧
      containsKey [("x", ⟨5, [5], { value := some "x" }, 0⟩)] "" = false) ∧
    (TVInv (applyTVOps
        [TVOp.derivCheck (fun _ _ _ => 7) "t",
         TVOp.generation (some 9) [] (fun _ => none) "a"]
        [("x", ⟨5, [5], { value := some "x" }, 0⟩)]) ∧
      ∃ t, lookupPrev (applyTVOps
        [TVOp.derivCheck (fun _ _ _ => 7) "t",
         TVOp.generation (some 9) [] (fun _ => none) "a"]
        [("x", ⟨5, [5], { value := some "x" }, 0⟩)]) "x" =
          lookupPrev [("x", ⟨5, [5], { value := some "x" }, 0⟩)] "x" ++ t) := by
  have hops : ∀ op ∈ [TVOp.derivCheck (fun _ _ _ => (7 : Int)) "t",
      TVOp.generation (some 9) [] (fun _ => none) "a"], op.wf := by
    intro op hop
    rcases List.mem_cons.mp hop with rfl | hop'
    · trivial
    · rcases List.mem_cons.mp hop' with rfl | hop''
      · intro it hit
        cases hit
      · cases hop''
  have h := traced_variables_unique
    [TVOp.derivCheck (fun _ _ _ => 7) "t",
     TVOp.generation (some 9) [] (fun _ => none) "a"]
    [("x", ⟨5, [5], { value := some "x" }, 0⟩)]
    (by decide) (by decide) hops
  exact ⟨⟨by decide, by decide⟩, h.1, h.2.1 "x"⟩

/-- The frozen form of C2 is refuted by an (admittedly pathological) tracked
variable whose path is the empty string: `log_generation` then reaches the
`_returned_result` registration — which appends without a uniqueness check —
with an identifier that was already bumped into `_returned_result`'s
`previous_ids`, so one path records the same identifier twice. -/
theorem traced_variables_unique_counterexample :
    TVInv [("_returned_result", ⟨6, [6], {}, 0⟩), ("", ⟨5, [5], {}, 0⟩)] ∧
    lookupPrev (applyTVOps [TVOp.generation (some 5) [] (fun _ => none) "a"]
        [("_returned_result", ⟨6, [6], {}, 0⟩), ("", ⟨5, [5], {}, 0⟩)])
      "_returned_result" = [6, 6] ∧
    ¬ (lookupPrev (applyTVOps [TVOp.generation (some 5) [] (fun _ => none) "a"]
        [("_returned_result", ⟨6, [6], {}, 0⟩), ("", ⟨5, [5], {}, 0⟩)])
      "_returned_result").Nodup :=
  ⟨by decide, by decide, by decide⟩

/-! ### C3 and C4: failure semantics and the capture switch -/

/-- C3: when the wrapped callable raises, the wrapper propagates the original
exception unchanged and emits no log record at all — the pre-call derivation,
usage and parameter records never reach the sink. -/
theorem trace_wrapper_raises {π α : Type} (cfg : CaptureConfig) (session_id : Int)
    (activity activity_id : String) (scope_truthy : Bool)
    (eid : String → ItemDescription → TVMap → Int)
    (usage_records parameter_records : List ProvRecord)
    (rid : Option Int) (genItems : List (Option Int × ItemDescription))
    (role : ItemDescription → Option String) (pre_time start finish : String)
    (func : π → Except String α) (args : π) (st : CaptureState) (e : String)
    (hfunc : func args = .error e) :
    (trace_wrapper cfg session_id activity activity_id scope_truthy eid
      usage_records parameter_records rid genItems role pre_time start finish
      func args st).result = .error e ∧
    (trace_wrapper cfg session_id activity activity_id scope_truthy eid
      usage_records parameter_records rid genItems role pre_time start finish
      func args st).emitted = [] := by
  simp [trace_wrapper, hfunc]

/-- Witness for C3: a concrete raising callable. -/
theorem trace_wrapper_raises_witness :
    ((fun _ : Unit => (.error "boom" : Except String Int)) () = .error "boom") ∧
    ((trace_wrapper ⟨true, true⟩ 1 "f" "a" true (fun _ _ _ => 7) [] [] none []
        (fun _ => none) "p" "s" "e" (fun _ : Unit => (.error "boom" : Except String Int))
        () ⟨[], [("x", ⟨5, [5], {}, 0⟩)]⟩).result = .error "boom" ∧
      (trace_wrapper ⟨true, true⟩ 1 "f" "a" true (fun _ _ _ => 7) [] [] none []
        (fun _ => none) "p" "s" "e" (fun _ : Unit => (.error "boom" : Except String Int))
        () ⟨[], [("x", ⟨5, [5], {}, 0⟩)]⟩).emitted = []) :=
  ⟨rfl, trace_wrapper_raises ⟨true, true⟩ 1 "f" "a" true (fun _ _ _ => 7) [] [] none []
    (fun _ => none) "p" "s" "e" _ () ⟨[], [("x", ⟨5, [5], {}, 0⟩)]⟩ "boom" rfl⟩

/-- C4: with the `capture` configuration flag off, a traced call emits zero
records and the wrapper returns exactly what the wrapped callable returns on
the unchanged arguments. -/
theorem trace_wrapper_capture_off {π α : Type} (cfg : CaptureConfig)
    (session_id : Int) (activity activity_id : String) (scope_truthy : Bool)
    (eid : String → ItemDescription → TVMap → Int)
    (usage_records parameter_records : List ProvRecord)
    (rid : Option Int) (genItems : List (Option Int × ItemDescription))
    (role : ItemDescription → Option String) (pre_time start finish : String)
    (func : π → Except String α) (args : π) (st : CaptureState)
    (hcap : cfg.capture = false) :
    (trace_wrapper cfg session_id activity activity_id scope_truthy eid
      usage_records parameter_records rid genItems role pre_time start finish
      func args st).emitted = [] ∧
    (trace_wrapper cfg session_id activity activity_id scope_truthy eid
      usage_records parameter_records rid genItems role pre_time start finish
      func args st).result = func args := by
  have hact : log_is_active cfg scope_truthy = false := by
    simp [log_is_active, hcap]
  cases hfa : func args with
  | error e => simp [trace_wrapper, hact, hfa]
  | ok v => simp [trace_wrapper, hact, hfa]

/-! ### C8: shapes of the records emitted by each phase -/

theorem shape_entity_or_derivation {r : ProvRecord}
    (h : r.isEntity = true ∨ r.isDerivation = true) :
    r.isGeneration = false ∧ r.isUsage = false ∧ r.isStart = false ∧
      r.isFinish = false ∧ r.isSession = false := by
  cases r <;> simp_all [ProvRecord.isEntity, ProvRecord.isDerivation,
    ProvRecord.isGeneration, ProvRecord.isUsage, ProvRecord.isStart,
    ProvRecord.isFinish, ProvRecord.isSession]

theorem shape_entity_or_generation {r : ProvRecord}
    (h : r.isEntity = true ∨ r.isGeneration = true) :
    r.isUsage = false ∧ r.isStart = false ∧ r.isFinish = false ∧
      r.isSession = false ∧ r.isDerivation = false := by
  cases r <;> simp_all [ProvRecord.isEntity, ProvRecord.isDerivation,
    ProvRecord.isGeneration, ProvRecord.isUsage, ProvRecord.isStart,
    ProvRecord.isFinish, ProvRecord.isSession]

theorem shape_session {r : ProvRecord} (h : r.isSession = true) :
    r.isGeneration = false ∧ r.isUsage = false ∧ r.isStart = false ∧
      r.isFinish = false ∧ r.isDerivation = false := by
  cases r <;> simp_all [ProvRecord.isSession, ProvRecord.isDerivation,
    ProvRecord.isGeneration, ProvRecord.isUsage, ProvRecord.isStart,
    ProvRecord.isFinish]

theorem derivStep_records_shape (eid : String → ItemDescription → TVMap → Int)
    (now : String) (var : String) (m : TVMap) :
    ∀ r ∈ (derivStep eid now var m).1, r.isEntity = true ∨ r.isDerivation = true := by
  intro r hr
  by_cases hv : var = "_returned_result"
  · subst hv
    rw [derivStep_rr] at hr
    cases hr
  · match hm : lookupEntry m var with
    | none =>
      rw [derivStep_none eid now var m hm] at hr
      cases hr
    | some tv =>
      by_cases heq : eid var tv.item_description m = tv.last_id
      · rw [derivStep_unchanged eid now var m tv hv hm heq] at hr
        cases hr
      · rw [derivStep_changed eid now var m tv hv hm heq] at hr
        rcases List.mem_cons.mp hr with rfl | hr'
        · exact Or.inl rfl
        · rcases List.mem_cons.mp hr' with rfl | hr''
          · exact Or.inr rfl
          · cases hr''

theorem derivLoop_records_shape (eid : String → ItemDescription → TVMap → Int)
    (now : String) (keys : List String) (m : TVMap) :
    ∀ r ∈ (derivLoop eid now keys m).1,
      r.isEntity = true ∨ r.isDerivation = true := by
  induction keys generalizing m with
  | nil => intro r hr; cases hr
  | cons var rest ih =>
    intro r hr
    simp only [derivLoop] at hr
    rcases List.mem_append.mp hr with h | h
    · exact derivStep_records_shape eid now var m r h
    · exact ih _ r h

theorem get_derivation_records_shape
    (eid : String → ItemDescription → TVMap → Int) (now : String) (m : TVMap) :
    ∀ r ∈ (get_derivation_records eid now m).1,
      r.isEntity = true ∨ r.isDerivation = true :=
  derivLoop_records_shape eid now (m.map Prod.fst) m

theorem genItemsLoop_records_shape (aid : String) (ret : Option Int)
    (role : ItemDescription → Option String)
    (items : List (Option Int × ItemDescription)) (s : GenItemsState) :
    ∀ r ∈ (genItemsLoop aid ret role items s).records,
      r ∈ s.records ∨ r.isEntity = true ∨ r.isGeneration = true := by
  induction items generalizing s with
  | nil => intro r hr; exact Or.inl hr
  | cons it rest ih =>
    obtain ⟨idOpt, idesc⟩ := it
    cases idOpt with
    | none =>
      simp only [genItemsLoop]
      exact ih s
    | some id0 =>
      simp only [genItemsLoop]
      intro r hr
      rcases ih _ r hr with hmem | hshape
      · rcases List.mem_append.mp hmem with h | h
        · exact Or.inl h
        · rcases List.mem_cons.mp h with rfl | h'
          · exact Or.inr (Or.inl rfl)
          · rcases List.mem_cons.mp h' with rfl | h''
            · exact Or.inr (Or.inr rfl)
            · cases h''
      · exact Or.inr hshape

theorem log_generation_records_shape (rid : Option Int)
    (items : List (Option Int × ItemDescription))
    (role : ItemDescription → Option String) (aid : String) (m : TVMap) :
    ∀ r ∈ (log_generation rid items role aid m).1,
      r.isEntity = true ∨ r.isGeneration = true := by
  cases rid with
  | none =>
    intro r hr
    simp only [log_generation] at hr
    rcases List.mem_append.mp hr with h | h
    · rcases genItemsLoop_records_shape aid none role items _ r h with h' | h'
      · cases h'
      · exact h'
    · cases h
  | some rid0 =>
    intro r hr
    simp only [log_generation] at hr
    rcases List.mem_append.mp hr with h | h
    · rcases genItemsLoop_records_shape aid _ role items _ r h with h' | h'
      · cases h'
      · exact h'
    · split at h <;> split at h
      · rcases List.mem_cons.mp h with rfl | h'
        · exact Or.inl rfl
        · rcases List.mem_cons.mp h' with rfl | h''
          · exact Or.inr rfl
          · cases h''
      · cases h
      · rcases List.mem_cons.mp h with rfl | h'
        · exact Or.inl rfl
        · rcases List.mem_cons.mp h' with rfl | h''
          · exact Or.inr rfl
          · cases h''
      · cases h

theorem log_session_records_shape (session_id : Int) (sessions : List Int) :
    ∀ r ∈ (log_session session_id sessions).1, r.isSession = true := by
  intro r hr
  unfold log_session at hr
  split at hr
  · cases hr
  · rcases List.mem_singleton.mp hr with rfl
    rfl

/-- Positional ordering across a two-part split of an emitted list. -/
theorem split_precedes (E A B : List ProvRecord) (hE : E = A ++ B)
    (p q : ProvRecord → Bool)
    (hA : ∀ r ∈ A, q r = false) (hB : ∀ r ∈ B, p r = false)
    (i j : Nat) (hi : i < E.length) (hj : j < E.length)
    (hp : p (E[i]) = true) (hq : q (E[j]) = true) : i < j := by
  subst hE
  by_cases hiA : i < A.length
  · by_cases hjA : j < A.length
    · exfalso
      rw [List.getElem_append_left hjA] at hq
      rw [hA _ (List.getElem_mem hjA)] at hq
      cases hq
    · omega
  · exfalso
    have hge : A.length ≤ i := by omega
    have hlt : i - A.length < B.length := by
      have := List.length_append A B
      omega
    rw [List.getElem_append_right hge] at hp
    rw [hB _ (List.getElem_mem hlt)] at hp
    cases hp

/-- C8 (amended): within one successful traced invocation with capture
active, records are emitted in the order session (first invocation only),
then the pre-captured derivation records, then start-activity, then
parameter records, then usage records, then generation records, then
end-activity. In particular every usage record precedes every generation
record and the start-activity record precedes the end-activity record — but
the derivation records precede (rather than follow) the start-activity
record. -/
theorem trace_wrapper_order {π α : Type} (cfg : CaptureConfig) (session_id : Int)
    (activity activity_id : String) (scope_truthy : Bool)
    (eid : String → ItemDescription → TVMap → Int)
    (usage_records parameter_records : List ProvRecord)
    (rid : Option Int) (genItems : List (Option Int × ItemDescription))
    (role : ItemDescription → Option String) (pre_time start finish : String)
    (func : π → Except String α) (args : π) (st : CaptureState) (v : α)
    (E : List ProvRecord)
    (hE : E = (trace_wrapper cfg session_id activity activity_id scope_truthy eid
      usage_records parameter_records rid genItems role pre_time start finish
      func args st).emitted)
    (hactive : log_is_active cfg scope_truthy = true)
    (hfunc : func args = .ok v)
    (hpu : ∀ r ∈ parameter_records ++ usage_records,
      r.isGeneration = false ∧ r.isStart = false ∧ r.isFinish = false ∧
        r.isSession = false ∧ r.isDerivation = false) :
    (∀ (i j : Nat) (hi : i < E.length) (hj : j < E.length),
      (E[i]).isUsage = true → (E[j]).isGeneration = true → i < j) ∧
    (∀ (i j : Nat) (hi : i < E.length) (hj : j < E.length),
      (E[i]).isDerivation = true → (E[j]).isStart = true → i < j) ∧
    (∀ (i j : Nat) (hi : i < E.length) (hj : j < E.length),
      (E[i]).isStart = true → (E[j]).isFinish = true → i < j) ∧
    E.getLast? = some (.finishActivity activity_id finish) ∧
    (∀ r ∈ E.tail, r.isSession = false) := by
  have hEeq : E =
      (log_session session_id st.sessions).1 ++
        (get_derivation_records eid pre_time st.traced_variables).1 ++
        [ProvRecord.startActivity activity_id activity start session_id] ++
        parameter_records ++ usage_records ++
        (log_generation rid genItems role activity_id
          (get_derivation_records eid pre_time st.traced_variables).2).1 ++
        [ProvRecord.finishActivity activity_id finish] := by
    rw [hE]
    simp [trace_wrapper, hactive, hfunc]
  set SS := (log_session session_id st.sessions).1 with hSSdef
  set D := (get_derivation_records eid pre_time st.traced_variables).1 with hDdef
  set G := (log_generation rid genItems role activity_id
    (get_derivation_records eid pre_time st.traced_variables).2).1 with hGdef
  have hSSs : ∀ r ∈ SS, r.isSession = true := log_session_records_shape _ _
  have hDs : ∀ r ∈ D, r.isEntity = true ∨ r.isDerivation = true :=
    get_derivation_records_shape _ _ _
  have hGs : ∀ r ∈ G, r.isEntity = true ∨ r.isGeneration = true :=
    log_generation_records_shape _ _ _ _ _
  refine ⟨?_, ?_, ?_, ?_, ?_⟩
  · intro i j hi hj hp hq
    refine split_precedes E
      (SS ++ D ++ [ProvRecord.startActivity activity_id activity start session_id]
        ++ parameter_records ++ usage_records)
      (G ++ [ProvRecord.finishActivity activity_id finish]) ?_
      ProvRecord.isUsage ProvRecord.isGeneration ?_ ?_ i j hi hj hp hq
    · rw [hEeq]
      simp only [List.append_assoc]
    · intro r hr
      rcases List.mem_append.mp hr with hr1 | hrU
      · rcases List.mem_append.mp hr1 with hr2 | hrP
        · rcases List.mem_append.mp hr2 with hr3 | hrS
          · rcases List.mem_append.mp hr3 with hrSS | hrD
            · exact (shape_session (hSSs r hrSS)).1
            · exact (shape_entity_or_derivation (hDs r hrD)).1
          · rcases List.mem_singleton.mp hrS with rfl
            rfl
        · exact (hpu r (List.mem_append_left _ hrP)).1
      · exact (hpu r (List.mem_append_right _ hrU)).1
    · intro r hr
      rcases List.mem_append.mp hr with hrG | hrF
      · exact (shape_entity_or_generation (hGs r hrG)).1
      · rcases List.mem_singleton.mp hrF with rfl
        rfl
  · intro i j hi hj hp hq
    refine split_precedes E (SS ++ D)
      ([ProvRecord.startActivity activity_id activity start session_id]
        ++ parameter_records ++ usage_records ++ G
        ++ [ProvRecord.finishActivity activity_id finish]) ?_
      ProvRecord.isDerivation ProvRecord.isStart ?_ ?_ i j hi hj hp hq
    · rw [hEeq]
      simp only [List.append_assoc]
    · intro r hr
      rcases List.mem_append.mp hr with hrSS | hrD
      · exact (shape_session (hSSs r hrSS)).2.2.1
      · exact (shape_entity_or_derivation (hDs r hrD)).2.2.1
    · intro r hr
      rcases List.mem_append.mp hr with hr1 | hrF
      · rcases List.mem_append.mp hr1 with hr2 | hrG
        · rcases List.mem_append.mp hr2 with hr3 | hrU
          · rcases List.mem_append.mp hr3 with hrS | hrP
            · rcases List.mem_singleton.mp hrS with rfl
              rfl
            · exact (hpu r (List.mem_append_left _ hrP)).2.2.2.2
          · exact (hpu r (List.mem_append_right _ hrU)).2.2.2.2
        · exact (shape_entity_or_generation (hGs r hrG)).2.2.2.2
      · rcases List.mem_singleton.mp hrF with rfl
        rfl
  · intro i j hi hj hp hq
    refine split_precedes E
      (SS ++ D ++ [ProvRecord.startActivity activity_id activity start session_id]
        ++ parameter_records ++ usage_records ++ G)
      ([ProvRecord.finishActivity activity_id finish]) ?_
      ProvRecord.isStart ProvRecord.isFinish ?_ ?_ i j hi hj hp hq
    · rw [hEeq]
    · intro r hr
      rcases List.mem_append.mp hr with hr1 | hrG
      · rcases List.mem_append.mp hr1 with hr2 | hrU
        · rcases List.mem_append.mp hr2 with hr3 | hrP
          · rcases List.mem_append.mp hr3 with hr4 | hrS
            · rcases List.mem_append.mp hr4 with hrSS | hrD
              · exact (shape_session (hSSs r hrSS)).2.2.2.1
              · exact (shape_entity_or_derivation (hDs r hrD)).2.2.2.1
            · rcases List.mem_singleton.mp hrS with rfl
              rfl
          · exact (hpu r (List.mem_append_left _ hrP)).2.2.1
        · exact (hpu r (List.mem_append_right _ hrU)).2.2.1
      · exact (shape_entity_or_generation (hGs r hrG)).2.2.1
    · intro r hr
      rcases List.mem_singleton.mp hr with rfl
      rfl
  · rw [hEeq]
    exact getLast?_append_singleton _ _
  · intro r hr
    rw [hEeq] at hr
    have hr' : r ∈ (SS ++
        (D ++ ([ProvRecord.startActivity activity_id activity start session_id] ++
          (parameter_records ++ (usage_records ++
            (G ++ [ProvRecord.finishActivity activity_id finish])))))).tail := by
      simpa [List.append_assoc] using hr
    have hL : ∀ x ∈ D ++ ([ProvRecord.startActivity activity_id activity start session_id] ++
        (parameter_records ++ (usage_records ++
          (G ++ [ProvRecord.finishActivity activity_id finish])))),
        x.isSession = false := by
      intro x hx
      rcases List.mem_append.mp hx with hxD | hx1
      · exact (shape_entity_or_derivation (hDs x hxD)).2.2.2.2
      · rcases List.mem_append.mp hx1 with hxS | hx2
        · rcases List.mem_singleton.mp hxS with rfl
          rfl
        · rcases List.mem_append.mp hx2 with hxP | hx3
          · exact (hpu x (List.mem_append_left _ hxP)).2.2.2.1
          · rcases List.mem_append.mp hx3 with hxU | hx4
            · exact (hpu x (List.mem_append_right _ hxU)).2.2.2.1
            · rcases List.mem_append.mp hx4 with hxG | hxF
              · exact (shape_entity_or_generation (hGs x hxG)).2.2.2.1
              · rcases List.mem_singleton.mp hxF with rfl
                rfl
    by_cases hss : session_id ∈ st.sessions
    · have hSSnil : SS = [] := by
        rw [hSSdef]
        simp [log_session, hss]
      rw [hSSnil, List.nil_append] at hr'
      refine hL r ?_
      cases hLl : D ++ ([ProvRecord.startActivity activity_id activity start session_id] ++
          (parameter_records ++ (usage_records ++
            (G ++ [ProvRecord.finishActivity activity_id finish])))) with
      | nil =>
        rw [hLl] at hr'
        exact absurd hr' (List.not_mem_nil r)
      | cons a t =>
        rw [hLl] at hr'
        exact List.mem_cons_of_mem a hr'
    · have hSSone : SS = [.session session_id] := by
        rw [hSSdef]
        simp [log_session, hss]
      rw [hSSone, List.singleton_append] at hr'
      exact hL r hr'

/-- Witness for C8 at a concrete invocation: one changed tracked variable,
one parameter record, one usage record, one generation item; the theorem
applies and the end-activity record is emitted last. -/
theorem trace_wrapper_order_witness :
    (log_is_active ⟨true, false⟩ true = true ∧
      (fun _ : Unit => (.ok 0 : Except String Int)) () = .ok 0 ∧
      (∀ r ∈ ([ProvRecord.parameters "a"] ++ [ProvRecord.usage "a" 20 none]),
        r.isGeneration = false ∧ r.isStart = false ∧ r.isFinish = false ∧
          r.isSession = false ∧ r.isDerivation = false)) ∧
    (trace_wrapper ⟨true, false⟩ 1 "f" "a" true (fun _ _ _ => 7)
      [ProvRecord.usage "a" 20 none] [ProvRecord.parameters "a"] none
      [(some 30, {})] (fun _ => none) "p" "s" "e"
      (fun _ : Unit => (.ok 0 : Except String Int)) ()
      ⟨[], [("x", ⟨5, [5], {}, 0⟩)]⟩).emitted.getLast? =
      some (.finishActivity "a" "e") :=
  ⟨⟨rfl, rfl, by decide⟩,
    (trace_wrapper_order ⟨true, false⟩ 1 "f" "a" true (fun _ _ _ => 7)
      [ProvRecord.usage "a" 20 none] [ProvRecord.parameters "a"] none
      [(some 30, {})] (fun _ => none) "p" "s" "e"
      (fun _ : Unit => (.ok 0 : Except String Int)) ()
      ⟨[], [("x", ⟨5, [5], {}, 0⟩)]⟩ 0 _ rfl rfl rfl (by decide)).2.2.2.1⟩

/-- The frozen form of C8 ("the start-activity record precedes every
derivation record") is refuted by a concrete invocation: with one changed
tracked variable the emitted stream places the derivation record at index 2
and the start-activity record at index 3. -/
theorem trace_wrapper_order_counterexample :
    (trace_wrapper ⟨true, false⟩ 1 "f" "a" true (fun _ _ _ => 7) [] [] none []
      (fun _ => none) "p" "s" "e" (fun _ : Unit => (.ok 0 : Except String Int)) ()
      ⟨[], [("x", ⟨5, [5], {}, 0⟩)]⟩).emitted =
      [.session 1, .entity 7 none none none none, .derivation 7 5 "p",
       .startActivity "a" "f" "s" 1, .finishActivity "a" "e"] ∧
    ((trace_wrapper ⟨true, false⟩ 1 "f" "a" true (fun _ _ _ => 7) [] [] none []
      (fun _ => none) "p" "s" "e" (fun _ : Unit => (.ok 0 : Except String Int)) ()
      ⟨[], [("x", ⟨5, [5], {}, 0⟩)]⟩).emitted[2]?.map ProvRecord.isDerivation =
        some true) ∧
    ((trace_wrapper ⟨true, false⟩ 1 "f" "a" true (fun _ _ _ => 7) [] [] none []
      (fun _ => none) "p" "s" "e" (fun _ : Unit => (.ok 0 : Except String Int)) ()
      ⟨[], [("x", ⟨5, [5], {}, 0⟩)]⟩).emitted[3]?.map ProvRecord.isStart =
        some true) :=
  ⟨by decide, by decide, by decide⟩

/-- Witness for C4: capture disabled, a returning callable. -/
theorem trace_wrapper_capture_off_witness :
    ((⟨false, true⟩ : CaptureConfig).capture = false) ∧
    ((trace_wrapper ⟨false, true⟩ 1 "f" "a" true (fun _ _ _ => 7) [] [] none []
        (fun _ => none) "p" "s" "e" (fun n : Int => (.ok (n + 1) : Except String Int))
        41 ⟨[], [("x", ⟨5, [5], {}, 0⟩)]⟩).emitted = [] ∧
      (trace_wrapper ⟨false, true⟩ 1 "f" "a" true (fun _ _ _ => 7) [] [] none []
        (fun _ => none) "p" "s" "e" (fun n : Int => (.ok (n + 1) : Except String Int))
        41 ⟨[], [("x", ⟨5, [5], {}, 0⟩)]⟩).result =
        (fun n : Int => (.ok (n + 1) : Except String Int)) 41) :=
  ⟨rfl, trace_wrapper_capture_off ⟨false, true⟩ 1 "f" "a" true (fun _ _ _ => 7) [] []
    none [] (fun _ => none) "p" "s" "e" _ 41 ⟨[], [("x", ⟨5, [5], {}, 0⟩)]⟩ rfl⟩

/-- Computation of `get_entity_id` on the non-file branch (shared by the
statements about in-memory entities). -/
theorem get_entity_id_num_eq (defs : Definitions) (tv : TVMap)
    (gfif : Option (String → String)) (hashString : String → Int)
    (file_hash : String → String) (is_dir : String → Bool)
    (value : PyIdValue) (idesc : ItemDescription) (var_name : String)
    (hty1 : (resolve_ed defs idesc var_name).2 ≠ "File")
    (hty2 : (resolve_ed defs idesc var_name).2 ≠ "FileCollection") :
    (∀ h, value.hashVal = some h → value.entityVersion = Option.none →
      get_entity_id defs tv gfif hashString file_hash is_dir value idesc var_name =
        EId.num (pyAbs (h + hashString value.str_) * 10 + trackedModifier tv idesc)) ∧
    (value.hashVal = Option.none →
      get_entity_id defs tv gfif hashString file_hash is_dir value idesc var_name =
        EId.num (pyAbs (value.addr + hashString (resolve_ed defs idesc var_name).1)
          * 10 + trackedModifier tv idesc)) := by
  constructor
  · intro h hh hv
    simp [get_entity_id, hty1, hty2, hh, hv]
  · intro hh
    simp [get_entity_id, hty1, hty2, hh]

/-- C6: for declared entity types other than `File` and `FileCollection`,
the identity assigner returns, for a hashable value (without the unused
`entity_version` attribute), `abs(hash(value) + hash(str(value))) * 10` plus
the tracked-variable modifier when the item's `value` path is tracked; for
an unhashable value it combines `id(value)` with the hash of the
entity-description name instead. -/
theorem get_entity_id_pythonObject (defs : Definitions) (tv : TVMap)
    (gfif : Option (String → String)) (hashString : String → Int)
    (file_hash : String → String) (is_dir : String → Bool)
    (value : PyIdValue) (idesc : ItemDescription) (var_name : String)
    (hty1 : (resolve_ed defs idesc var_name).2 ≠ "File")
    (hty2 : (resolve_ed defs idesc var_name).2 ≠ "FileCollection") :
    (∀ h, value.hashVal = some h → value.entityVersion = Option.none →
      get_entity_id defs tv gfif hashString file_hash is_dir value idesc var_name =
        EId.num (pyAbs (h + hashString value.str_) * 10 + trackedModifier tv idesc)) ∧
    (value.hashVal = Option.none →
      get_entity_id defs tv gfif hashString file_hash is_dir value idesc var_name =
        EId.num (pyAbs (value.addr + hashString (resolve_ed defs idesc var_name).1)
          * 10 + trackedModifier tv idesc)) :=
  get_entity_id_num_eq defs tv gfif hashString file_hash is_dir value idesc
    var_name hty1 hty2

/-- Witness for C6 at a concrete entity description, tracked map and value:
the hashable case yields `abs(2 + hash("v")) * 10 + 3` and the unhashable
case falls back to the address and the description name's hash. -/
theorem get_entity_id_pythonObject_witness :
    ((resolve_ed ⟨[("Obj", ⟨"PythonObject", Option.none⟩)]⟩
        { entity_description := some "Obj", value := some "x" } "").2 ≠ "File" ∧
     (resolve_ed ⟨[("Obj", ⟨"PythonObject", Option.none⟩)]⟩
        { entity_description := some "Obj", value := some "x" } "").2 ≠ "FileCollection") ∧
    get_entity_id ⟨[("Obj", ⟨"PythonObject", Option.none⟩)]⟩
        [("x", ⟨5, [5], {}, 3⟩)] Option.none (fun s => (s.length : Int)) (fun _ => "")
        (fun _ => false) ⟨"v", some 2, 77, Option.none⟩
        { entity_description := some "Obj", value := some "x" } "" =
      EId.num (pyAbs (2 + (("v" : String).length : Int)) * 10 +
        trackedModifier [("x", ⟨5, [5], {}, 3⟩)]
          { entity_description := some "Obj", value := some "x" }) :=
  ⟨⟨by decide, by decide⟩,
    (get_entity_id_pythonObject ⟨[("Obj", ⟨"PythonObject", Option.none⟩)]⟩
      [("x", ⟨5, [5], {}, 3⟩)] Option.none (fun s => (s.length : Int)) (fun _ => "")
      (fun _ => false) ⟨"v", some 2, 77, Option.none⟩
      { entity_description := some "Obj", value := some "x" } ""
      (by decide) (by decide)).1 2 rfl rfl⟩

theorem pyAbs_nonneg (i : Int) : 0 ≤ pyAbs i := by
  unfold pyAbs
  split <;> omega

/-- C10: for a hashable value whose `value` path is not tracked and which has
no `entity_version`, the assigned identifier is a non-negative multiple of
10; consequently such a base identifier plus a modifier between 1 and 9 can
never equal another freshly computed base identifier. -/
theorem get_entity_id_multiple_of_ten (defs : Definitions) (tv : TVMap)
    (gfif : Option (String → String)) (hashString : String → Int)
    (file_hash : String → String) (is_dir : String → Bool)
    (value1 value2 : PyIdValue) (idesc1 idesc2 : ItemDescription)
    (var_name1 var_name2 : String) (h1 h2 : Int) (m : Int)
    (hty1 : (resolve_ed defs idesc1 var_name1).2 ≠ "File")
    (hty1' : (resolve_ed defs idesc1 var_name1).2 ≠ "FileCollection")
    (hty2 : (resolve_ed defs idesc2 var_name2).2 ≠ "File")
    (hty2' : (resolve_ed defs idesc2 var_name2).2 ≠ "FileCollection")
    (hh1 : value1.hashVal = some h1) (hv1 : value1.entityVersion = Option.none)
    (hh2 : value2.hashVal = some h2) (hv2 : value2.entityVersion = Option.none)
    (hu1 : ∀ v, idesc1.value = some v → lookupEntry tv v = Option.none)
    (hu2 : ∀ v, idesc2.value = some v → lookupEntry tv v = Option.none)
    (hm1 : 1 ≤ m) (hm9 : m ≤ 9) :
    (∃ e1, get_entity_id defs tv gfif hashString file_hash is_dir value1 idesc1
        var_name1 = EId.num e1 ∧ 0 ≤ e1 ∧ e1 % 10 = 0) ∧
    (∀ e1 e2,
      get_entity_id defs tv gfif hashString file_hash is_dir value1 idesc1
        var_name1 = EId.num e1 →
      get_entity_id defs tv gfif hashString file_hash is_dir value2 idesc2
        var_name2 = EId.num e2 →
      e1 + m ≠ e2) := by
  have hmod1 : trackedModifier tv idesc1 = 0 := by
    unfold trackedModifier
    cases hiv : idesc1.value with
    | none => rfl
    | some v =>
      show (match lookupEntry tv v with | some e => e.modifier | Option.none => 0) = (0 : Int)
      rw [hu1 v hiv]
  have hmod2 : trackedModifier tv idesc2 = 0 := by
    unfold trackedModifier
    cases hiv : idesc2.value with
    | none => rfl
    | some v =>
      show (match lookupEntry tv v with | some e => e.modifier | Option.none => 0) = (0 : Int)
      rw [hu2 v hiv]
  have he1 := (get_entity_id_num_eq defs tv gfif hashString file_hash is_dir
    value1 idesc1 var_name1 hty1 hty1').1 h1 hh1 hv1
  have he2 := (get_entity_id_num_eq defs tv gfif hashString file_hash is_dir
    value2 idesc2 var_name2 hty2 hty2').1 h2 hh2 hv2
  rw [hmod1] at he1
  rw [hmod2] at he2
  constructor
  · refine ⟨pyAbs (h1 + hashString value1.str_) * 10, by rw [he1, add_zero], ?_, ?_⟩
    · have := pyAbs_nonneg (h1 + hashString value1.str_)
      omega
    · omega
  · intro e1 e2 hg1 hg2
    rw [he1] at hg1
    rw [he2] at hg2
    injection hg1 with hg1
    injection hg2 with hg2
    omega

/-- Witness for C10: two concrete fresh identifiers 30 and 60; `30 + 3` is
not `60`. -/
theorem get_entity_id_multiple_of_ten_witness :
    (∃ e1, get_entity_id ⟨[]⟩ [] Option.none (fun s => (s.length : Int)) (fun _ => "")
        (fun _ => false) ⟨"v", some 2, 77, Option.none⟩ {} "" = EId.num e1 ∧
        0 ≤ e1 ∧ e1 % 10 = 0) ∧
    (30 : Int) + 3 ≠ 60 :=
  ⟨(get_entity_id_multiple_of_ten ⟨[]⟩ [] Option.none (fun s => (s.length : Int)) (fun _ => "")
      (fun _ => false) ⟨"v", some 2, 77, Option.none⟩ ⟨"vv", some 4, 78, Option.none⟩
      {} {} "" "" 2 4 3 (by decide) (by decide) (by decide) (by decide)
      rfl rfl rfl rfl (fun v hv => by cases hv) (fun v hv => by cases hv)
      (by decide) (by decide)).1,
   (get_entity_id_multiple_of_ten ⟨[]⟩ [] Option.none (fun s => (s.length : Int)) (fun _ => "")
      (fun _ => false) ⟨"v", some 2, 77, Option.none⟩ ⟨"vv", some 4, 78, Option.none⟩
      {} {} "" "" 2 4 3 (by decide) (by decide) (by decide) (by decide)
      rfl rfl rfl rfl (fun v hv => by cases hv) (fun v hv => by cases hv)
      (by decide) (by decide)).2 30 60 (by decide) (by decide)⟩

/-- Sanity: the blocks concatenate back to the file's bytes, so the fueled
chunking loses nothing. -/
theorem chunkBytesFuel_join :
    ∀ (n : Nat) (bs : List Nat), bs.length < n → (chunkBytesFuel n bs).flatten = bs := by
  intro n
  induction n with
  | zero => intro bs h; omega
  | succ n ih =>
    intro bs h
    by_cases hb : bs = []
    · simp [chunkBytesFuel, hb]
    · have hlen : (bs.drop 65536).length < n := by
        rw [List.length_drop]
        have : 0 < bs.length := List.length_pos.mpr hb
        omega
      simp only [chunkBytesFuel, hb, if_false, List.flatten_cons]
      rw [ih _ hlen, List.take_append_drop]

theorem chunkBytes_join (bs : List Nat) : (chunkBytes bs).flatten = bs :=
  chunkBytesFuel_join _ bs (Nat.lt_succ_self _)

/-- C7: with a supported hash algorithm configured, a missing file makes
`get_file_hash` return the path string itself (never raising), while an
existing file yields the hex digest of the block-streamed content — hence
two paths holding identical bytes yield the same identifier. -/
theorem get_file_hash_spec {σ : Type} (cfg : HashConfig) (fsys : FileSys)
    (alg : String → HashFunc σ)
    (hm : get_hash_method cfg ≠ "Full path") :
    (∀ p, fsys.files (fsys.expandvars p) = Option.none →
      get_file_hash cfg fsys alg p = p) ∧
    (∀ p bytes, fsys.files (fsys.expandvars p) = some bytes →
      get_file_hash cfg fsys alg p =
        (alg (get_hash_method cfg)).hexdigest
          ((chunkBytes bytes).foldl (alg (get_hash_method cfg)).update
            (alg (get_hash_method cfg)).init)) ∧
    (∀ p1 p2 bytes, fsys.files (fsys.expandvars p1) = some bytes →
      fsys.files (fsys.expandvars p2) = some bytes →
      get_file_hash cfg fsys alg p1 = get_file_hash cfg fsys alg p2) := by
  have hdig : ∀ p bytes, fsys.files (fsys.expandvars p) = some bytes →
      get_file_hash cfg fsys alg p =
        (alg (get_hash_method cfg)).hexdigest
          ((chunkBytes bytes).foldl (alg (get_hash_method cfg)).update
            (alg (get_hash_method cfg)).init) := by
    intro p bytes hp
    simp [get_file_hash, hm, hp]
  refine ⟨?_, hdig, ?_⟩
  · intro p hp
    simp [get_file_hash, hm, hp]
  · intro p1 p2 bytes hp1 hp2
    rw [hdig p1 bytes hp1, hdig p2 bytes hp2]

/-- Witness for C7: a two-file system where `a` and `b` hold the same bytes
and `zz` does not exist. -/
theorem get_file_hash_spec_witness :
    (get_hash_method ⟨Option.none⟩ ≠ "Full path" ∧
      FileSys.files ⟨id, fun p => if p = "a" ∨ p = "b" then some [7, 8] else Option.none⟩
        (FileSys.expandvars ⟨id, fun p => if p = "a" ∨ p = "b" then some [7, 8]
          else Option.none⟩ "zz") = Option.none) ∧
    get_file_hash ⟨Option.none⟩
      ⟨id, fun p => if p = "a" ∨ p = "b" then some [7, 8] else Option.none⟩
      (fun _ => (⟨0, fun s _ => s, fun _ => "d"⟩ : HashFunc Nat)) "zz" = "zz" ∧
    get_file_hash ⟨Option.none⟩
      ⟨id, fun p => if p = "a" ∨ p = "b" then some [7, 8] else Option.none⟩
      (fun _ => (⟨0, fun s _ => s, fun _ => "d"⟩ : HashFunc Nat)) "a" =
    get_file_hash ⟨Option.none⟩
      ⟨id, fun p => if p = "a" ∨ p = "b" then some [7, 8] else Option.none⟩
      (fun _ => (⟨0, fun s _ => s, fun _ => "d"⟩ : HashFunc Nat)) "b" :=
  ⟨⟨by decide, by decide⟩,
    (get_file_hash_spec ⟨Option.none⟩
      ⟨id, fun p => if p = "a" ∨ p = "b" then some [7, 8] else Option.none⟩
      (fun _ => (⟨0, fun s _ => s, fun _ => "d"⟩ : HashFunc Nat))
      (by decide)).1 "zz" (by decide),
    (get_file_hash_spec ⟨Option.none⟩
      ⟨id, fun p => if p = "a" ∨ p = "b" then some [7, 8] else Option.none⟩
      (fun _ => (⟨0, fun s _ => s, fun _ => "d"⟩ : HashFunc Nat))
      (by decide)).2.2 "a" "b" [7, 8] (by decide) (by decide)⟩

/-- C9: constructing `ProvCapture` is idempotent — from a fresh process,
every construction returns the instance built from the first call's
arguments, and all later `definitions`/`config`/`get_file_id_func` arguments
are ignored. -/
theorem provCapture_singleton (a0 : InitArgs) (rest : List InitArgs) :
    runConstructions (a0 :: rest) Option.none =
      (a0 :: rest).map (fun _ => provCaptureInit a0) := by
  have haux : ∀ (l : List InitArgs) (inst : ProvCaptureInst),
      runConstructions l (some inst) = l.map (fun _ => inst) := by
    intro l
    induction l with
    | nil => intro inst; rfl
    | cons a rest ih =>
      intro inst
      simp only [runConstructions, singletonCall, List.map_cons]
      rw [ih inst]
  simp only [runConstructions, singletonCall, List.map_cons]
  rw [haux rest (provCaptureInit a0)]

/-- The frozen form of C5 ("never raises when a segment is not found, for all
three segment kinds including index access") is refuted: resolving the index
path `xs[0]` against an object without an `xs` attribute raises
`AttributeError`, because the index branch calls `getattr` without a
default. -/
theorem get_nested_value_counterexample :
    isAttributeError
      (get_nested_value [] (.obj [] (fun _ => Option.none)) "xs[0]") = true := by
  rfl

/-- C5 (amended): for dotted paths made of plain segments — attribute or
mapping-key lookups, without `(` or `[` — the resolver never raises: it
returns a value (possibly `None` after the globals fallback) for every
scope. The TypeError branch for a scope that is neither a mapping nor an
object is unreachable, since every value is an object; but an index segment
resolved against an object raises `AttributeError` when the attribute is
missing (and `ValueError` for a non-numeric index), so the never-raises
guarantee does not extend to all three segment kinds. -/
theorem get_nested_value_plain_total (g : List (String × PyVal))
    (scope : PyVal) (segs : List String)
    (hplain : ∀ s ∈ segs, pyContains s '(' = false ∧ pyContains s '[' = false) :
    ∃ v, get_nested_value_segs g scope segs = .ok v := by
  induction segs generalizing scope with
  | nil => exact ⟨scope, rfl⟩
  | cons leaf rest ih =>
    have hleaf := hplain leaf (List.mem_cons_self _ _)
    have hrest : ∀ s ∈ rest, pyContains s '(' = false ∧ pyContains s '[' = false :=
      fun s hs => hplain s (List.mem_cons_of_mem _ hs)
    by_cases hf : pyFalsy scope
    · refine ⟨(alistLookup g leaf).getD .none, ?_⟩
      simp [get_nested_value_segs, hf]
    · have hval : ∀ value : PyVal,
          ∃ v, (if rest.isEmpty then
            if isPyNone value then
              Except.ok ((alistLookup g leaf).getD PyVal.none)
            else Except.ok value
          else get_nested_value_segs g value rest) = .ok v := by
        intro value
        cases hre : rest.isEmpty with
        | true =>
          by_cases hn : isPyNone value
          · exact ⟨(alistLookup g leaf).getD .none, by simp [hre, hn]⟩
          · exact ⟨value, by simp [hre, hn]⟩
        | false =>
          obtain ⟨v, hv⟩ := ih value hrest
          exact ⟨v, by simp [hre, hv]⟩
      by_cases hd : isinstance_dict scope
      · obtain ⟨v, hv⟩ := hval ((dictGet scope leaf).getD .none)
        refine ⟨v, ?_⟩
        simp only [get_nested_value_segs, hf, if_false, hd, if_true]
        exact hv
      · obtain ⟨v, hv⟩ := hval ((getattrOpt scope leaf).getD .none)
        refine ⟨v, ?_⟩
        simp only [get_nested_value_segs, hf, if_false, hd, isinstance_object,
          hleaf.1, hleaf.2, if_true]
        exact hv

/-- Witness for C5 at a concrete scope and plain path: `a.b` resolved
against a dict holding an object. -/
theorem get_nested_value_plain_total_witness :
    (∀ s ∈ ["a", "b"], pyContains s '(' = false ∧ pyContains s '[' = false) ∧
    ∃ v, get_nested_value_segs []
      (.dict [("a", .obj [("b", .int 3)] (fun _ => Option.none))]) ["a", "b"] =
      .ok v :=
  ⟨by decide,
    get_nested_value_plain_total []
      (.dict [("a", .obj [("b", .int 3)] (fun _ => Option.none))]) ["a", "b"]
      (by decide)⟩

end Logprov
